import Mathlib

/-!
# ATtiny841 USART driver: shallow embedding of `attiny841_uart.c`

The driver keeps, per USART instance, a heap block `UART_DATA` holding a
receive ring and a transmit ring, and programs the instance's registers.
The embedding below follows `attiny841_uart.c` / `attiny841_uart.h`
function by function.

Conventions of the embedding.

* Values of C integer types are natural numbers; arithmetic that can wrap
  is reduced explicitly (`% 256` for `uint8_t`, `% 2 ^ 16` for `uint16_t`,
  `% 2 ^ 32` for `unsigned long`).
* A function returns `none` where the C program has no defined outcome:
  an index outside `uart_data[]`, an access outside `data[]`, a read past
  the caller's buffer, a dereference of a `NULL` channel pointer, or a
  division by zero.
* The bit numbers of the register fields (`UDRIE0`, `RXEN1`, ...) come from
  `<avr/io.h>`, which is not part of the repository; they are a parameter
  (`IoDefs`) of every function that uses them.
* The transmit side of the data register `UDRn` is recorded as the list of
  bytes written to it (oldest first); the receive side is the byte a read
  of `UDRn` yields.
-/

namespace Attiny841

/-! ## Constants of `attiny841_uart.h` -/

/-- Clock frequency, `#define F_CPU 8000000UL`. -/
def F_CPU : Nat := 8000000

/-- Number of slots of `uart_data[]`, `#define MAX_UART_INTERFACES 2`. -/
def MAX_UART_INTERFACES : Nat := 2

/-- Instance number, `#define USART_0 0`. -/
def USART_0 : Nat := 0

/-- Instance number, `#define USART_1 1`. -/
def USART_1 : Nat := 1

/-- Ring capacity, `#define DATA_BUFFER_LEN 16`. -/
def DATA_BUFFER_LEN : Nat := 16

/-- Parity selector, `#define PARITY_NONE 0`. -/
def PARITY_NONE : Nat := 0

/-- Parity selector, `#define PARITY_ODD 1`. -/
def PARITY_ODD : Nat := 1

/-- Parity selector, `#define PARITY_EVEN 2`. -/
def PARITY_EVEN : Nat := 2

/-! ## Data model -/

/-- The array `uint8_t data[DATA_BUFFER_LEN]`: exactly sixteen bytes. -/
abbrev DataArray : Type := { l : List Nat // l.length = 16 }

/-- One ring: `typedef struct { uint8_t data[DATA_BUFFER_LEN]; uint8_t head; uint8_t tail; } DATA_BUFFER;` -/
structure DATA_BUFFER where
  data : DataArray
  head : Nat
  tail : Nat
deriving DecidableEq

/-- The channel block of one instance: `typedef struct { DATA_BUFFER rx; DATA_BUFFER tx; } UART_DATA;` -/
structure UART_DATA where
  rx : DATA_BUFFER
  tx : DATA_BUFFER
deriving DecidableEq

/-- The registers of one USART instance that the driver touches.
`UDR_rx` is the value a read of `UDRn` yields, `UDR_tx` the bytes written
to `UDRn` so far, oldest first. -/
structure USART where
  UCSRB : Nat
  UCSRC : Nat
  UBRRH : Nat
  UBRRL : Nat
  UDR_rx : Nat
  UDR_tx : List Nat
deriving DecidableEq

/-- Bit numbers of one instance's register fields, as named in `<avr/io.h>`
(`UMSELn0`, `UMSELn1`, `UCSZn0`, ... for instance `n`). -/
structure UsartBits where
  UMSEL0 : Nat
  UMSEL1 : Nat
  UCSZ0 : Nat
  UCSZ1 : Nat
  UCSZ2 : Nat
  UPM0 : Nat
  UPM1 : Nat
  USBS : Nat
  TXEN : Nat
  RXEN : Nat
  RXCIE : Nat
  TXCIE : Nat
  UDRIE : Nat
deriving DecidableEq

/-- The bit numbers of both instances. -/
structure IoDefs where
  usart0 : UsartBits
  usart1 : UsartBits
deriving DecidableEq

/-- The machine state seen by the driver: the global `uart_data[]` (with
`none` for `NULL`), the global interrupt enable flag of `SREG`, and the
registers of the two instances. -/
structure State where
  uart_data0 : Option UART_DATA
  uart_data1 : Option UART_DATA
  SREG_I : Bool
  usart0 : USART
  usart1 : USART
deriving DecidableEq

/-- Reading `uart_data[i]`: `none` when `i` is outside the array. -/
def State.uart_data (s : State) (i : Nat) : Option (Option UART_DATA) :=
  match i with
  | 0 => some s.uart_data0
  | 1 => some s.uart_data1
  | _ => none

/-- Writing `uart_data[i] = p` for `i` inside the array. -/
def State.set_uart_data (s : State) (i : Nat) (p : Option UART_DATA) : State :=
  match i with
  | 0 => { s with uart_data0 := p }
  | 1 => { s with uart_data1 := p }
  | _ => s

/-- The registers of instance `i`. -/
def State.usart (s : State) (i : Nat) : USART :=
  match i with
  | 0 => s.usart0
  | _ => s.usart1

/-- The bit numbers of instance `i`. -/
def IoDefs.usart (io : IoDefs) (i : Nat) : UsartBits :=
  match i with
  | 0 => io.usart0
  | _ => io.usart1

/-! ## Register and memory primitives -/

/-- The update `reg |= m` of an 8-bit register. -/
def reg_or (r m : Nat) : Nat := (r ||| m) % 256

/-- The update `reg &= ~m` of an 8-bit register (`m` an `int` mask). -/
def reg_andnot (r m : Nat) : Nat := (r &&& (0xFFFF ^^^ m)) % 256

/-- The mask `1 << b`. -/
def bit (b : Nat) : Nat := 1 <<< b

/-- Reading `a[i]`: defined for an index inside the array. -/
def DataArray.read (a : DataArray) (i : Nat) : Option Nat := a.val[i]?

/-- Storing `a[i] = v`: defined for an index inside the array. -/
def DataArray.write (a : DataArray) (i v : Nat) : Option DataArray :=
  if i < DATA_BUFFER_LEN then
    some ⟨a.val.set i v, by rw [List.length_set]; exact a.property⟩
  else none

/-- The call `memcpy(&dst[off], src, n)`: defined when the `n` bytes lie inside
`dst` and `src` holds at least `n` bytes. -/
def memcpy (dst : DataArray) (off : Nat) (src : List Nat) (n : Nat) : Option DataArray :=
  if h : off + n ≤ DATA_BUFFER_LEN ∧ n ≤ src.length then
    some ⟨dst.val.take off ++ (src.take n ++ dst.val.drop (off + n)), by
      have hd := dst.property
      have h1 := h.1
      have h2 := h.2
      simp only [DATA_BUFFER_LEN] at h1
      simp only [List.length_append, List.length_take, List.length_drop, hd]
      omega⟩
  else none

/-- Advancing a ring index by one position: `0` after `DATA_BUFFER_LEN - 1`,
else the `uint8_t` increment. -/
def advance (i : Nat) : Nat :=
  if i = DATA_BUFFER_LEN - 1 then 0 else (i + 1) % 256

/-! ## `init_uart` -/

/-- The baud value of `init_uart`:
`uint16_t ubrrRegister = F_CPU / 16 / baudRate - 1;`, computed in
`unsigned long` (32 bits on AVR) and converted to `uint16_t`. -/
def ubrrRegister (baudRate : Nat) : Nat :=
  ((F_CPU / 16 / baudRate + 2 ^ 32 - 1) % 2 ^ 32) % 2 ^ 16

/-- The statement `switch(byteSize)` of `init_uart`, on one instance's registers. -/
def set_bytesize (b : UsartBits) (r : USART) (byteSize : Nat) : USART :=
  match byteSize with
  | 5 =>
    let r := { r with UCSRB := reg_andnot r.UCSRB (bit b.UCSZ2) }
    { r with UCSRC := reg_andnot r.UCSRC (bit b.UCSZ1 ||| bit b.UCSZ0) }
  | 6 =>
    let r := { r with UCSRB := reg_andnot r.UCSRB (bit b.UCSZ2) }
    let r := { r with UCSRC := reg_andnot r.UCSRC (bit b.UCSZ1) }
    { r with UCSRC := reg_or r.UCSRC (bit b.UCSZ0) }
  | 7 =>
    let r := { r with UCSRB := reg_andnot r.UCSRB (bit b.UCSZ2) }
    let r := { r with UCSRC := reg_or r.UCSRC (bit b.UCSZ1) }
    { r with UCSRC := reg_andnot r.UCSRC (bit b.UCSZ0) }
  | 8 =>
    let r := { r with UCSRB := reg_andnot r.UCSRB (bit b.UCSZ2) }
    { r with UCSRC := reg_or r.UCSRC (bit b.UCSZ1 ||| bit b.UCSZ0) }
  | _ => r

/-- The statement `switch(parity)` of `init_uart`, on one instance's registers
(cases `PARITY_NONE` = 0, `PARITY_EVEN` = 2, `PARITY_ODD` = 1). -/
def set_parity (b : UsartBits) (r : USART) (parity : Nat) : USART :=
  match parity with
  | 0 => { r with UCSRC := reg_andnot r.UCSRC (bit b.UPM0 ||| bit b.UPM1) }
  | 2 =>
    let r := { r with UCSRC := reg_andnot r.UCSRC (bit b.UPM0) }
    { r with UCSRC := reg_or r.UCSRC (bit b.UPM1) }
  | 1 => { r with UCSRC := reg_or r.UCSRC (bit b.UPM1 ||| bit b.UPM0) }
  | _ => r

/-- The statement `switch(stopBits)` of `init_uart`, on one instance's registers. -/
def set_stopbits (b : UsartBits) (r : USART) (stopBits : Nat) : USART :=
  match stopBits with
  | 1 => { r with UCSRC := reg_andnot r.UCSRC (bit b.USBS) }
  | 2 => { r with UCSRC := reg_or r.UCSRC (bit b.USBS) }
  | _ => r

/-- The body of the branch `uart_select == USART_n` of `init_uart`, on the
registers of instance `n`: mode bits, baud registers, byte size, parity,
stop bits, enables. Undefined for `baudRate = 0` (division by zero). -/
def program_usart (b : UsartBits) (r : USART)
    (baudRate byteSize parity stopBits : Nat) : Option USART :=
  let r := { r with UCSRB := reg_or r.UCSRB (bit b.UMSEL0 ||| bit b.UMSEL1) }
  if baudRate = 0 then none
  else
    let ubrr := ubrrRegister baudRate
    let r := { r with UBRRH := (ubrr >>> 8) % 256 }
    let r := { r with UBRRL := ubrr % 256 }
    let r := set_bytesize b r byteSize
    let r := set_parity b r parity
    let r := set_stopbits b r stopBits
    let r := { r with UCSRB := reg_or r.UCSRB (bit b.TXEN ||| bit b.RXEN ||| bit b.RXCIE) }
    let r := { r with UCSRB := reg_andnot r.UCSRB (bit b.TXCIE) }
    some r

/-- The four assignments `uart_data[uart_select]->rx.head = 0; ... ->tx.tail = 0;`. -/
def zero_indices (u : UART_DATA) : UART_DATA :=
  { rx := { u.rx with head := 0, tail := 0 }, tx := { u.tx with head := 0, tail := 0 } }

/-- The function `init_uart`. The argument `mem` is the block handed out by
`malloc(sizeof(UART_DATA))`, with whatever it contains (the source does not
test the pointer; the allocation is taken to succeed). The steps are those of
the source in order: slot assignment, `cli()`, the branch of the selected
instance, `sei()`, the four index assignments. The result pairs the new state
with the returned `bool`. -/
def init_uart (io : IoDefs) (mem : UART_DATA) (s : State)
    (uart_select baudRate byteSize parity stopBits : Nat) : Option (State × Bool) :=
  match s.uart_data uart_select with
  | none => none
  | some (some _) => some (s, false)
  | some none =>
    if (parity = 0 ∨ parity = 1) ∧ (byteSize ≥ 5 ∧ byteSize ≤ 8) ∧
        (stopBits = 1 ∨ stopBits = 2) then
      let s1 := s.set_uart_data uart_select (some mem)
      let s2 := { s1 with SREG_I := false }
      let programmed : Option (State × Bool) :=
        if uart_select = USART_0 then
          match program_usart io.usart0 s2.usart0 baudRate byteSize parity stopBits with
          | none => none
          | some r => some ({ s2 with usart0 := r }, true)
        else if uart_select = USART_1 then
          match program_usart io.usart1 s2.usart1 baudRate byteSize parity stopBits with
          | none => none
          | some r => some ({ s2 with usart1 := r }, true)
        else some (s2, false)
      match programmed with
      | none => none
      | some (s3, init_succes) =>
        let s4 := { s3 with SREG_I := true }
        match s4.uart_data uart_select with
        | some (some u) =>
          some (s4.set_uart_data uart_select (some (zero_indices u)), init_succes)
        | _ => none
    else some (s, false)

/-! ## `deinit_uart` -/

/-- The statement `UCSRnB &= ~(1 << TXENn | 1 << RXENn | 1 << RXCIEn);` of
`deinit_uart`. -/
def disable_usart (b : UsartBits) (r : USART) : USART :=
  { r with UCSRB := reg_andnot r.UCSRB (bit b.TXEN ||| bit b.RXEN ||| bit b.RXCIE) }

/-- The function `deinit_uart`. -/
def deinit_uart (io : IoDefs) (s : State) (uart_select : Nat) : Option (State × Bool) :=
  match s.uart_data uart_select with
  | none => none
  | some none => some (s, false)
  | some (some _) =>
    let s1 : State :=
      match uart_select with
      | 0 => { s with usart0 := disable_usart io.usart0 s.usart0 }
      | 1 => { s with usart1 := disable_usart io.usart1 s.usart1 }
      | _ => s
    some (s1.set_uart_data uart_select none, true)

/-! ## `uart_transmit` -/

/-- The copy of `uart_transmit` into the transmit ring: one `memcpy` when
`data_len < DATA_BUFFER_LEN - head`, else the split copy with
`uint8_t overflow = data_len - (DATA_BUFFER_LEN - head)`. The subtractions are
those of the source for `head <= DATA_BUFFER_LEN`; for a larger `head` the
destination `&data[head]` lies outside the array and the result is `none`. -/
def tx_copy (tx : DATA_BUFFER) (data : List Nat) (data_len : Nat) : Option DATA_BUFFER :=
  if data_len < DATA_BUFFER_LEN - tx.head then
    match memcpy tx.data tx.head data data_len with
    | none => none
    | some d => some { tx with data := d, head := (tx.head + data_len) % 256 }
  else
    let overflow := (data_len - (DATA_BUFFER_LEN - tx.head)) % 256
    match memcpy tx.data tx.head data (data_len - overflow) with
    | none => none
    | some d1 =>
      match memcpy d1 0 (data.drop (data_len - overflow)) overflow with
      | none => none
      | some d2 => some { tx with data := d2, head := overflow }

/-- The two statements `UDRn = ...; UCSRnB |= (1 << UDRIEn);` of `uart_transmit`. -/
def kick (b : UsartBits) (r : USART) (byte : Nat) : USART :=
  let r := { r with UDR_tx := r.UDR_tx ++ [byte] }
  { r with UCSRB := reg_or r.UCSRB (bit b.UDRIE) }

/-- The function `uart_transmit`. The argument `data` lists the bytes stored
at the pointer `data`; the result pairs the new state with the returned `bool`. -/
def uart_transmit (io : IoDefs) (s : State) (uart_select : Nat) (data : List Nat)
    (data_len : Nat) : Option (State × Bool) :=
  let transmit_success := false
  match s.uart_data uart_select with
  | none => none
  | some none => some (s, transmit_success)
  | some (some u) =>
    match tx_copy u.tx data data_len with
    | none => none
    | some tx1 =>
      let tail := tx1.tail
      let tx2 := { tx1 with tail := advance tx1.tail }
      let s1 := s.set_uart_data uart_select (some { u with tx := tx2 })
      if uart_select = USART_0 then
        match tx2.data.read tail with
        | none => none
        | some byte => some ({ s1 with usart0 := kick io.usart0 s1.usart0 byte }, transmit_success)
      else if uart_select = USART_1 then
        match tx2.data.read tail with
        | none => none
        | some byte => some ({ s1 with usart1 := kick io.usart1 s1.usart1 byte }, transmit_success)
      else some (s1, transmit_success)

/-! ## `uart_read_byte` -/

/-- The function `uart_read_byte`. The argument `byte` is the current content
of the caller's variable `*byte`; the result holds the new state, the returned
`bool` and the content of `*byte` afterwards. -/
def uart_read_byte (s : State) (uart_select : Nat) (byte : Nat) :
    Option (State × Bool × Nat) :=
  match s.uart_data uart_select with
  | none => none
  | some none => some (s, false, byte)
  | some (some u) =>
    if u.rx.tail ≠ u.rx.head then
      match u.rx.data.read u.rx.tail with
      | none => none
      | some v =>
        let rx1 := { u.rx with tail := advance u.rx.tail }
        some (s.set_uart_data uart_select (some { u with rx := rx1 }), true, v)
    else some (s, false, byte)

/-! ## Interrupt handlers -/

/-- The body of `ISR(USARTn_UDRE_vect)`, on the channel block and the registers
of instance `n`. -/
def udre_body (b : UsartBits) (u : UART_DATA) (r : USART) : Option (UART_DATA × USART) :=
  if u.tx.tail ≠ u.tx.head then
    let tail := u.tx.tail
    let tx1 := { u.tx with tail := advance u.tx.tail }
    match tx1.data.read tail with
    | none => none
    | some byte => some ({ u with tx := tx1 }, { r with UDR_tx := r.UDR_tx ++ [byte] })
  else
    some (u, { r with UCSRB := reg_andnot r.UCSRB (bit b.UDRIE) })

/-- The body of `ISR(USARTn_RX_vect)`, on the channel block and the registers
of instance `n`. -/
def rx_body (u : UART_DATA) (r : USART) : Option (UART_DATA × USART) :=
  match u.rx.data.write u.rx.head r.UDR_rx with
  | none => none
  | some d =>
    let rx1 := { u.rx with data := d }
    some ({ u with rx := { rx1 with head := advance rx1.head } }, r)

/-- The handler `ISR(USART0_UDRE_vect)`; undefined when `uart_data[USART_0]` is `NULL`. -/
def USART0_UDRE_vect (io : IoDefs) (s : State) : Option State :=
  match s.uart_data0 with
  | none => none
  | some u =>
    match udre_body io.usart0 u s.usart0 with
    | none => none
    | some (u1, r1) => some { s with uart_data0 := some u1, usart0 := r1 }

/-- The handler `ISR(USART0_RX_vect)`; undefined when `uart_data[USART_0]` is `NULL`. -/
def USART0_RX_vect (s : State) : Option State :=
  match s.uart_data0 with
  | none => none
  | some u =>
    match rx_body u s.usart0 with
    | none => none
    | some (u1, r1) => some { s with uart_data0 := some u1, usart0 := r1 }

/-- The handler `ISR(USART1_UDRE_vect)`; undefined when `uart_data[USART_1]` is `NULL`. -/
def USART1_UDRE_vect (io : IoDefs) (s : State) : Option State :=
  match s.uart_data1 with
  | none => none
  | some u =>
    match udre_body io.usart1 u s.usart1 with
    | none => none
    | some (u1, r1) => some { s with uart_data1 := some u1, usart1 := r1 }

/-- The handler `ISR(USART1_RX_vect)`; undefined when `uart_data[USART_1]` is `NULL`. -/
def USART1_RX_vect (s : State) : Option State :=
  match s.uart_data1 with
  | none => none
  | some u =>
    match rx_body u s.usart1 with
    | none => none
    | some (u1, r1) => some { s with uart_data1 := some u1, usart1 := r1 }

/-- The data-register-empty handler of instance `i`. -/
def UDRE_vect (io : IoDefs) (s : State) (i : Nat) : Option State :=
  match i with
  | 0 => USART0_UDRE_vect io s
  | 1 => USART1_UDRE_vect io s
  | _ => none

/-- The receive-complete handler of instance `i`. -/
def RX_vect (s : State) (i : Nat) : Option State :=
  match i with
  | 0 => USART0_RX_vect s
  | 1 => USART1_RX_vect s
  | _ => none

/-- The hardware of instance `i` has received the byte `d`: a read of `UDRi`
now yields `d`. -/
def hw_receive (s : State) (i : Nat) (d : Nat) : State :=
  match i with
  | 0 => { s with usart0 := { s.usart0 with UDR_rx := d } }
  | 1 => { s with usart1 := { s.usart1 with UDR_rx := d } }
  | _ => s

/-! ## Concrete inputs -/

/-- Bit numbers of the ATtiny841 USART registers (`UCSRnB`: `RXCIEn` 7,
`TXCIEn` 6, `UDRIEn` 5, `RXENn` 4, `TXENn` 3, `UCSZn2` 2; `UCSRnC`:
`UMSELn1` 7, `UMSELn0` 6, `UPMn1` 5, `UPMn0` 4, `USBSn` 3, `UCSZn1` 2,
`UCSZn0` 1), used as a concrete `IoDefs`. -/
def tn841_bits : UsartBits :=
  { UMSEL0 := 6, UMSEL1 := 7, UCSZ0 := 1, UCSZ1 := 2, UCSZ2 := 2, UPM0 := 4, UPM1 := 5,
    USBS := 3, TXEN := 3, RXEN := 4, RXCIE := 7, TXCIE := 6, UDRIE := 5 }

/-- Both instances of the ATtiny841 use the same bit numbers. -/
def tn841 : IoDefs := { usart0 := tn841_bits, usart1 := tn841_bits }

/-- Registers of an instance with every register 0 and nothing transmitted yet. -/
def usart_zero : USART :=
  { UCSRB := 0, UCSRC := 0, UBRRH := 0, UBRRL := 0, UDR_rx := 0, UDR_tx := [] }

/-- The state at program start: `uart_data[MAX_UART_INTERFACES] = {NULL}`,
interrupts disabled, registers taken as 0. -/
def boot : State :=
  { uart_data0 := none, uart_data1 := none, SREG_I := false,
    usart0 := usart_zero, usart1 := usart_zero }

/-- A ring filled with the byte `v`, with indices `h` and `t`. -/
def ring_of (v h t : Nat) : DATA_BUFFER :=
  { data := ⟨List.replicate 16 v, by simp⟩, head := h, tail := t }

/-- A channel block as `malloc` may hand it out: every byte `0xAA`, the four
index bytes included. -/
def junk : UART_DATA := { rx := ring_of 170 170 170, tx := ring_of 170 170 170 }

/-! ## Definitions used in the statements and proofs -/

/-- The state reached from `boot` by `init_uart(USART_0, 9600, 8, PARITY_NONE, 1)`
when `malloc` hands out `junk`. -/
def opened0 : State :=
  { uart_data0 := some (zero_indices junk), uart_data1 := none, SREG_I := true,
    usart0 := { UCSRB := 152, UCSRC := 6, UBRRH := 0, UBRRL := 51, UDR_rx := 0, UDR_tx := [] },
    usart1 := usart_zero }

/-- The guard of `init_uart` on its frame parameters, as written in the source:
`(parity == 0 || parity == 1) && (byteSize >= 5 && byteSize <= 8) &&
(stopBits == 1 || stopBits == 2)`. -/
def params_ok (byteSize parity stopBits : Nat) : Prop :=
  (parity = 0 ∨ parity = 1) ∧ (byteSize ≥ 5 ∧ byteSize ≤ 8) ∧ (stopBits = 1 ∨ stopBits = 2)

instance (byteSize parity stopBits : Nat) : Decidable (params_ok byteSize parity stopBits) := by
  unfold params_ok
  infer_instance

/-- Both indices of a ring lie in `[0, DATA_BUFFER_LEN)`. -/
def in_range (b : DATA_BUFFER) : Prop := b.head < 16 ∧ b.tail < 16

/-- Number of bytes a ring holds: the distance from `tail` to `head`, modulo 16. -/
def ring_count (b : DATA_BUFFER) : Nat := (b.head + 16 - b.tail) % 16

/-- The bytes a ring holds, from `tail` up to `head`, oldest first. -/
def ring_contents (b : DATA_BUFFER) : List Nat :=
  (List.range (ring_count b)).map (fun k => (b.data.val[(b.tail + k) % 16]?).getD 0)

/-- The state with the channel block and the registers of instance `i` replaced. -/
def State.put (s : State) (i : Nat) (u : UART_DATA) (r : USART) : State :=
  match i with
  | 0 => { s with uart_data0 := some u, usart0 := r }
  | 1 => { s with uart_data1 := some u, usart1 := r }
  | _ => s

/-- The outcome of `k` successive data-register-empty firings of instance `i`. -/
def udre_fire (io : IoDefs) (i : Nat) : Nat → State → Option State
  | 0, s => some s
  | k + 1, s => (UDRE_vect io s i).bind (udre_fire io i k)

/-- The outcome of the receive-complete firings of instance `i` that deliver the
bytes `ds` one after the other: before each firing the hardware has placed the
byte in the data register. -/
def rx_fire (i : Nat) : List Nat → State → Option State
  | [], s => some s
  | d :: ds, s => (RX_vect (hw_receive s i d) i).bind (rx_fire i ds)

/-- The outcome of `k` successive calls `uart_read_byte(i, &byte)`: the final state and,
for each call in order, the returned `bool` with the content of `byte` after it. -/
def read_n (i : Nat) : Nat → State → Nat → Option (State × List (Bool × Nat))
  | 0, s, _ => some (s, [])
  | k + 1, s, byte =>
    match uart_read_byte s i byte with
    | none => none
    | some (s1, r, byte1) =>
      match read_n i k s1 byte1 with
      | none => none
      | some (s2, rs) => some (s2, (r, byte1) :: rs)

/-- The data-register-empty interrupt enable of instance `i`: bit `UDRIEi` of `UCSRiB`. -/
def udrie (io : IoDefs) (s : State) (i : Nat) : Bool :=
  (s.usart i).UCSRB.testBit (io.usart i).UDRIE

/-- What instance `j` owns: its slot of `uart_data[]` and its registers. -/
def instance_view (s : State) (j : Nat) : Option (Option UART_DATA) × USART :=
  (s.uart_data j, s.usart j)

/-- A channel block whose receive ring holds the single byte 7. -/
def block7 : UART_DATA :=
  { rx := { data := ⟨7 :: List.replicate 15 170, by simp⟩, head := 1, tail := 0 },
    tx := ring_of 170 0 0 }

/-- A concrete state: `opened0` after one receive-complete firing that delivered
the byte 7. -/
def received0 : State :=
  { uart_data0 := some block7, uart_data1 := none, SREG_I := true,
    usart0 := { UCSRB := 152, UCSRC := 6, UBRRH := 0, UBRRL := 51, UDR_rx := 7, UDR_tx := [] },
    usart1 := usart_zero }

/-- All four indices of a channel block lie in `[0, DATA_BUFFER_LEN)`. -/
def indices_in_range (u : UART_DATA) : Prop :=
  u.rx.head < 16 ∧ u.rx.tail < 16 ∧ u.tx.head < 16 ∧ u.tx.tail < 16

instance (u : UART_DATA) : Decidable (indices_in_range u) := by
  unfold indices_in_range
  infer_instance

/-- A concrete state: instance 0 open with both transmit indices at 14. -/
def wrap0 : State :=
  { uart_data0 := some { rx := ring_of 170 0 0, tx := ring_of 170 14 14 },
    uart_data1 := none, SREG_I := true,
    usart0 := { UCSRB := 152, UCSRC := 6, UBRRH := 0, UBRRL := 51, UDR_rx := 0, UDR_tx := [] },
    usart1 := usart_zero }

/-- The bit `UDRIEn` lies in the 8-bit register `UCSRnB` and differs from the bits
that `init_uart` and `deinit_uart` write in `UCSRnB`. -/
def udrie_separate (b : UsartBits) : Prop :=
  b.UDRIE < 8 ∧ b.UDRIE ≠ b.UMSEL0 ∧ b.UDRIE ≠ b.UMSEL1 ∧ b.UDRIE ≠ b.UCSZ2 ∧
    b.UDRIE ≠ b.TXEN ∧ b.UDRIE ≠ b.RXEN ∧ b.UDRIE ≠ b.RXCIE ∧ b.UDRIE ≠ b.TXCIE

instance (b : UsartBits) : Decidable (udrie_separate b) := by
  unfold udrie_separate
  infer_instance

/-- An event on the transmit path of one instance: a call
`uart_transmit(i, data, len(data))` or a data-register-empty firing. -/
inductive TxEvent where
  | send (data : List Nat)
  | fire
deriving DecidableEq

/-- The outcome of a sequence of transmit-path events of instance `i`, in order. -/
def tx_run (io : IoDefs) (i : Nat) : List TxEvent → State → Option State
  | [], s => some s
  | TxEvent.send d :: evs, s =>
    match uart_transmit io s i d d.length with
    | none => none
    | some (s1, _) => tx_run io i evs s1
  | TxEvent.fire :: evs, s => (UDRE_vect io s i).bind (tx_run io i evs)

/-- All the data passed to `uart_transmit` in a sequence of events, concatenated. -/
def sent : List TxEvent → List Nat
  | [] => []
  | TxEvent.send d :: evs => d ++ sent evs
  | TxEvent.fire :: evs => sent evs

/-- Every call in the sequence is made on an open instance with non-empty data and
`data_len < 16 - (bytes buffered in the transmit ring at the time of the call)`. -/
def tx_fits (io : IoDefs) (i : Nat) : List TxEvent → State → Bool
  | [], _ => true
  | TxEvent.send d :: evs, s =>
    match s.uart_data i with
    | some (some u) =>
      decide (d ≠ [] ∧ d.length < 16 - ring_count u.tx) &&
        (match uart_transmit io s i d d.length with
          | some (s1, _) => tx_fits io i evs s1
          | none => true)
    | _ => false
  | TxEvent.fire :: evs, s =>
    match UDRE_vect io s i with
    | some s1 => tx_fits io i evs s1
    | none => true

/-- The receive-complete interrupt enable of instance `i`: bit `RXCIEi` of `UCSRiB`. -/
def rxcie (io : IoDefs) (s : State) (i : Nat) : Bool :=
  (s.usart i).UCSRB.testBit (io.usart i).RXCIE

/-- The states `init_uart` passes through once the slot is found empty and the
parameter check has passed, in program order: after
`uart_data[uart_select] = malloc(...)`, after `cli()`, after the branch of the
selected instance (all of it runs with interrupts disabled), after `sei()`, and
after each of the assignments `rx.head = 0`, `rx.tail = 0`, `tx.head = 0`,
`tx.tail = 0`. On the other paths no step is taken. -/
def init_uart_trace (io : IoDefs) (mem : UART_DATA) (s : State)
    (uart_select baudRate byteSize parity stopBits : Nat) : Option (List State) :=
  match s.uart_data uart_select with
  | none => none
  | some (some _) => some []
  | some none =>
    if (parity = 0 ∨ parity = 1) ∧ (byteSize ≥ 5 ∧ byteSize ≤ 8) ∧
        (stopBits = 1 ∨ stopBits = 2) then
      let s1 := s.set_uart_data uart_select (some mem)
      let s2 := { s1 with SREG_I := false }
      let programmed : Option State :=
        if uart_select = USART_0 then
          match program_usart io.usart0 s2.usart0 baudRate byteSize parity stopBits with
          | none => none
          | some r => some { s2 with usart0 := r }
        else if uart_select = USART_1 then
          match program_usart io.usart1 s2.usart1 baudRate byteSize parity stopBits with
          | none => none
          | some r => some { s2 with usart1 := r }
        else some s2
      match programmed with
      | none => none
      | some s3 =>
        let s4 := { s3 with SREG_I := true }
        match s4.uart_data uart_select with
        | some (some u) =>
          let u5 : UART_DATA := { u with rx := { u.rx with head := 0 } }
          let u6 : UART_DATA := { u5 with rx := { u5.rx with tail := 0 } }
          let u7 : UART_DATA := { u6 with tx := { u6.tx with head := 0 } }
          let u8 : UART_DATA := { u7 with tx := { u7.tx with tail := 0 } }
          some [s1, s2, s3, s4, s4.set_uart_data uart_select (some u5),
            s4.set_uart_data uart_select (some u6), s4.set_uart_data uart_select (some u7),
            s4.set_uart_data uart_select (some u8)]
        | _ => none
    else some []

/-- The state of the run `init_uart(USART_0, 9600, 8, PARITY_NONE, 1)` from `boot` right
after `sei()`: registers programmed, interrupts enabled, the block still as
`malloc` handed it out. -/
def after_sei0 : State :=
  { uart_data0 := some junk, uart_data1 := none, SREG_I := true,
    usart0 := { UCSRB := 152, UCSRC := 6, UBRRH := 0, UBRRL := 51, UDR_rx := 0, UDR_tx := [] },
    usart1 := usart_zero }

/-- The state reached from `boot` by `init_uart(USART_0, 9600, 8, PARITY_NONE, 1)`,
`uart_transmit(USART_0, {0x41}, 1)` and `deinit_uart(USART_0)`. -/
def closed_draining0 : State :=
  { uart_data0 := none, uart_data1 := none, SREG_I := true,
    usart0 := { UCSRB := 32, UCSRC := 6, UBRRH := 0, UBRRL := 51, UDR_rx := 0, UDR_tx := [65] },
    usart1 := usart_zero }

/-! ## Basic facts about the slots of `uart_data[]` -/

theorem uart_data_some_index {s : State} {i : Nat} {p : Option UART_DATA}
    (h : s.uart_data i = some p) : i = 0 ∨ i = 1 := by
  match i with
  | 0 => exact Or.inl rfl
  | 1 => exact Or.inr rfl
  | (k + 2) => simp [State.uart_data] at h

theorem uart_data_set_same (s : State) {i : Nat} (hi : i = 0 ∨ i = 1)
    (p : Option UART_DATA) : (s.set_uart_data i p).uart_data i = some p := by
  rcases hi with rfl | rfl <;> rfl

theorem uart_data_set_other (s : State) {i j : Nat} (hij : i ≠ j)
    (p : Option UART_DATA) : (s.set_uart_data i p).uart_data j = s.uart_data j := by
  match i, j with
  | 0, 0 => exact absurd rfl hij
  | 1, 1 => exact absurd rfl hij
  | 0, 1 => rfl
  | 1, 0 => rfl
  | 0, (k + 2) => rfl
  | 1, (k + 2) => rfl
  | (k + 2), _ => rfl

theorem usart_set_uart_data (s : State) (i j : Nat) (p : Option UART_DATA) :
    (s.set_uart_data i p).usart j = s.usart j := by
  match i, j with
  | 0, 0 => rfl
  | 0, (k + 1) => rfl
  | 1, 0 => rfl
  | 1, (k + 1) => rfl
  | (k + 2), _ => rfl

/-! ## Return value of `uart_transmit` -/

/-- Whatever the arguments, a defined call of `uart_transmit` returns `false`:
`transmit_success` is initialised to `false` and never assigned. -/
theorem uart_transmit_result_false {io : IoDefs} {s s1 : State} {i n : Nat}
    {data : List Nat} {r : Bool} (h : uart_transmit io s i data n = some (s1, r)) :
    r = false := by
  unfold uart_transmit at h
  simp only at h
  split at h
  · simp at h
  · simp only [Option.some.injEq, Prod.mk.injEq] at h
    exact h.2.symm
  · split at h
    · simp at h
    · split at h
      · split at h
        · simp at h
        · simp only [Option.some.injEq, Prod.mk.injEq] at h
          exact h.2.symm
      · split at h
        · split at h
          · simp at h
          · simp only [Option.some.injEq, Prod.mk.injEq] at h
            exact h.2.symm
        · simp only [Option.some.injEq, Prod.mk.injEq] at h
          exact h.2.symm

theorem init_uart_boot_opened0 :
    init_uart tn841 junk boot 0 9600 8 PARITY_NONE 1 = some (opened0, true) := by
  decide

/-- C1, evaluated on the code: on instance 0, opened by
`init_uart(USART_0, 9600, 8, PARITY_NONE, 1)`, the call
`uart_transmit(USART_0, {0x41}, 1)` queues and sends the byte (it is written
to `UDR0` and the data-register-empty interrupt is armed) and yet returns
`false`, where the claim and the function's own comment promise `true`. -/
theorem uart_transmit_open_returns_false :
    opened0.uart_data 0 = some (some (zero_indices junk)) ∧
    (uart_transmit tn841 opened0 0 [65] 1).map
        (fun p => (p.2, p.1.usart0.UDR_tx, udrie tn841 p.1 0)) = some (false, [65], true) := by
  decide

/-! ## `init_uart`: parameter checks -/

/-- C2, evaluated on the code: with no channel open,
`init_uart(USART_0, 9600, 8, PARITY_EVEN, 1)` returns `false` and leaves the
state as it was, so instance 0 has no channel afterwards: the guard
`parity == 0 || parity == 1` rejects `PARITY_EVEN` (2), although the
`switch(parity)` below it has a `case PARITY_EVEN`. -/
theorem init_uart_parity_even_rejected :
    boot.uart_data 0 = some none ∧
    init_uart tn841 junk boot 0 9600 8 PARITY_EVEN 1 = some (boot, false) := by
  decide

theorem init_uart_closed0 (io : IoDefs) (mem : UART_DATA) (s : State)
    (baud bs par sb : Nat) (h : s.uart_data0 = none) (hv : params_ok bs par sb) :
    init_uart io mem s 0 baud bs par sb =
      (program_usart io.usart0 s.usart0 baud bs par sb).map (fun r =>
        ({ s with uart_data0 := some (zero_indices mem), SREG_I := true, usart0 := r }, true)) := by
  unfold params_ok at hv
  simp only [init_uart, State.uart_data, h, hv, and_self, if_true, State.set_uart_data, USART_0]
  cases program_usart io.usart0 s.usart0 baud bs par sb <;> rfl

theorem init_uart_closed1 (io : IoDefs) (mem : UART_DATA) (s : State)
    (baud bs par sb : Nat) (h : s.uart_data1 = none) (hv : params_ok bs par sb) :
    init_uart io mem s 1 baud bs par sb =
      (program_usart io.usart1 s.usart1 baud bs par sb).map (fun r =>
        ({ s with uart_data1 := some (zero_indices mem), SREG_I := true, usart1 := r }, true)) := by
  unfold params_ok at hv
  simp only [init_uart, State.uart_data, h, hv, and_self, if_true, State.set_uart_data, USART_0,
    USART_1, one_ne_zero, if_false]
  cases program_usart io.usart1 s.usart1 baud bs par sb <;> rfl

theorem init_uart_rejects (io : IoDefs) (mem : UART_DATA) (s : State)
    (i baud bs par sb : Nat) (h : s.uart_data i = some none) (hv : ¬ params_ok bs par sb) :
    init_uart io mem s i baud bs par sb = some (s, false) := by
  unfold params_ok at hv
  simp only [init_uart, h, hv, if_false]

theorem init_uart_open_slot (io : IoDefs) (mem : UART_DATA) (s : State)
    (i baud bs par sb : Nat) (u : UART_DATA) (h : s.uart_data i = some (some u)) :
    init_uart io mem s i baud bs par sb = some (s, false) := by
  simp only [init_uart, h]

/-! ## The baud registers -/

theorem set_bytesize_UBRR (b : UsartBits) (r : USART) (bs : Nat) :
    (set_bytesize b r bs).UBRRH = r.UBRRH ∧ (set_bytesize b r bs).UBRRL = r.UBRRL := by
  unfold set_bytesize
  split <;> exact ⟨rfl, rfl⟩

theorem set_parity_UBRR (b : UsartBits) (r : USART) (par : Nat) :
    (set_parity b r par).UBRRH = r.UBRRH ∧ (set_parity b r par).UBRRL = r.UBRRL := by
  unfold set_parity
  split <;> exact ⟨rfl, rfl⟩

theorem set_stopbits_UBRR (b : UsartBits) (r : USART) (sb : Nat) :
    (set_stopbits b r sb).UBRRH = r.UBRRH ∧ (set_stopbits b r sb).UBRRL = r.UBRRL := by
  unfold set_stopbits
  split <;> exact ⟨rfl, rfl⟩

theorem program_usart_UBRR {b : UsartBits} {r r1 : USART} {baud bs par sb : Nat}
    (h : program_usart b r baud bs par sb = some r1) :
    r1.UBRRH = (ubrrRegister baud >>> 8) % 256 ∧ r1.UBRRL = ubrrRegister baud % 256 := by
  unfold program_usart at h
  simp only at h
  split at h
  · simp at h
  · simp only [Option.some.injEq] at h
    subst h
    simp only [(set_stopbits_UBRR _ _ _).1, (set_stopbits_UBRR _ _ _).2,
      (set_parity_UBRR _ _ _).1, (set_parity_UBRR _ _ _).2,
      (set_bytesize_UBRR _ _ _).1, (set_bytesize_UBRR _ _ _).2, and_self]

theorem program_usart_defined (b : UsartBits) (r : USART) {baud : Nat} (bs par sb : Nat)
    (hb : baud ≠ 0) : ∃ r1, program_usart b r baud bs par sb = some r1 := by
  unfold program_usart
  simp only [hb, if_false]
  exact ⟨_, rfl⟩

theorem ubrrRegister_pair (baud : Nat) :
    (ubrrRegister baud >>> 8) % 256 * 256 + ubrrRegister baud % 256 = ubrrRegister baud := by
  have h : ubrrRegister baud < 2 ^ 16 := by
    unfold ubrrRegister
    exact Nat.mod_lt _ (by norm_num)
  rw [Nat.shiftRight_eq_div_pow]
  norm_num at h ⊢
  omega

theorem ubrrRegister_in_range {baud : Nat} (h8 : 8 ≤ baud) (hmax : baud ≤ 500000) :
    ubrrRegister baud = 8000000 / (16 * baud) - 1 := by
  have hq1 : 1 ≤ 500000 / baud := Nat.div_pos hmax (by omega)
  have hq2 : 500000 / baud ≤ 500000 / 8 := Nat.div_le_div_left h8 (by norm_num)
  have hdiv : 8000000 / (16 * baud) = 500000 / baud := by
    rw [← Nat.div_div_eq_div_mul]
  unfold ubrrRegister F_CPU
  rw [hdiv]
  norm_num at hq2 ⊢
  omega

/-- Every successful `init_uart` leaves the two bytes of `ubrrRegister baudRate`
in the baud registers of the instance. -/
theorem init_uart_success_UBRR {io : IoDefs} {mem : UART_DATA} {s s1 : State}
    {i baud bs par sb : Nat} (h : init_uart io mem s i baud bs par sb = some (s1, true)) :
    (s1.usart i).UBRRH * 256 + (s1.usart i).UBRRL = ubrrRegister baud := by
  cases hs : s.uart_data i with
  | none => simp [init_uart, hs] at h
  | some p =>
    cases p with
    | some u => simp [init_uart_open_slot io mem s i baud bs par sb u hs] at h
    | none =>
      by_cases hv : params_ok bs par sb
      · rcases uart_data_some_index hs with rfl | rfl
        · have h0 : s.uart_data0 = none := by simpa [State.uart_data] using hs
          rw [init_uart_closed0 io mem s baud bs par sb h0 hv] at h
          cases hp : program_usart io.usart0 s.usart0 baud bs par sb with
          | none => simp [hp] at h
          | some r =>
            simp only [hp, Option.map_some', Option.some.injEq, Prod.mk.injEq, and_true] at h
            subst h
            have hr := program_usart_UBRR hp
            simp only [State.usart, hr.1, hr.2]
            exact ubrrRegister_pair baud
        · have h1 : s.uart_data1 = none := by simpa [State.uart_data] using hs
          rw [init_uart_closed1 io mem s baud bs par sb h1 hv] at h
          cases hp : program_usart io.usart1 s.usart1 baud bs par sb with
          | none => simp [hp] at h
          | some r =>
            simp only [hp, Option.map_some', Option.some.injEq, Prod.mk.injEq, and_true] at h
            subst h
            have hr := program_usart_UBRR hp
            simp only [State.usart, hr.1, hr.2]
            exact ubrrRegister_pair baud
      · simp [init_uart_rejects io mem s i baud bs par sb hs hv] at h

/-- C3, as stated, fails on the code: `init_uart(USART_0, 1, 8, PARITY_NONE, 1)`
succeeds and leaves 41247 in the baud register pair of instance 0, while
`8000000 / (16 * 1) - 1` is 499999, which no 16-bit register pair can hold. -/
theorem init_uart_baud_one_truncated :
    (init_uart tn841 junk boot 0 1 8 PARITY_NONE 1).map
        (fun p => (p.2, (p.1.usart 0).UBRRH * 256 + (p.1.usart 0).UBRRL)) = some (true, 41247) ∧
    41247 ≠ 8000000 / (16 * 1) - 1 := by
  decide

/-- C3, amended: after every successful `init_uart` the baud register pair of the
instance (high byte * 256 + low byte) holds the low 16 bits of
`8000000 / (16 * baudRate) - 1` computed in 32-bit unsigned arithmetic, and for
every baud rate from 8 to 500000 this is exactly `8000000 / (16 * baudRate) - 1`
with truncating division. -/
theorem init_uart_baud_divisor (io : IoDefs) (mem : UART_DATA) (s s1 : State)
    (i baud bs par sb : Nat)
    (h : init_uart io mem s i baud bs par sb = some (s1, true)) :
    (s1.usart i).UBRRH * 256 + (s1.usart i).UBRRL
        = ((8000000 / (16 * baud) + 2 ^ 32 - 1) % 2 ^ 32) % 2 ^ 16 ∧
    (8 ≤ baud → baud ≤ 500000 →
      (s1.usart i).UBRRH * 256 + (s1.usart i).UBRRL = 8000000 / (16 * baud) - 1) := by
  have hpair := init_uart_success_UBRR h
  refine ⟨?_, fun h8 hmax => ?_⟩
  · rw [hpair]
    unfold ubrrRegister F_CPU
    rw [Nat.div_div_eq_div_mul]
  · rw [hpair]
    exact ubrrRegister_in_range h8 hmax

theorem init_uart_baud_divisor_witness :
    init_uart tn841 junk boot 0 9600 8 PARITY_NONE 1 = some (opened0, true) ∧
    (opened0.usart 0).UBRRH * 256 + (opened0.usart 0).UBRRL = 8000000 / (16 * 9600) - 1 :=
  ⟨init_uart_boot_opened0,
    (init_uart_baud_divisor tn841 junk boot opened0 0 9600 8 PARITY_NONE 1
      init_uart_boot_opened0).2 (by decide) (by decide)⟩

/-- C4: on an instance (0 or 1) without a channel, `init_uart` with a byte width
outside 5..8, or a parity outside none, odd, even, or a stop-bit count outside
1, 2 returns `false` and leaves the whole state (slots, flag, registers) as it
was; hence any `init_uart` on that instance after the failed call gives the
result it gives without the failed call. -/
theorem init_uart_invalid_params (io : IoDefs) (mem : UART_DATA) (s : State)
    (i baud bs par sb : Nat) (hclosed : s.uart_data i = some none)
    (hbad : bs < 5 ∨ 8 < bs ∨
      (par ≠ PARITY_NONE ∧ par ≠ PARITY_ODD ∧ par ≠ PARITY_EVEN) ∨ (sb ≠ 1 ∧ sb ≠ 2)) :
    init_uart io mem s i baud bs par sb = some (s, false) ∧
    ∀ (mem1 : UART_DATA) (baud1 bs1 par1 sb1 : Nat),
      (init_uart io mem s i baud bs par sb).bind
          (fun p => init_uart io mem1 p.1 i baud1 bs1 par1 sb1)
        = init_uart io mem1 s i baud1 bs1 par1 sb1 := by
  have hv : ¬ params_ok bs par sb := by
    unfold params_ok
    simp only [PARITY_NONE, PARITY_ODD, PARITY_EVEN] at hbad
    omega
  have hrej := init_uart_rejects io mem s i baud bs par sb hclosed hv
  refine ⟨hrej, fun mem1 baud1 bs1 par1 sb1 => ?_⟩
  rw [hrej]
  rfl

theorem init_uart_invalid_params_witness :
    init_uart tn841 junk boot 1 9600 9 PARITY_NONE 1 = some (boot, false) ∧
    ∀ (mem1 : UART_DATA) (baud1 bs1 par1 sb1 : Nat),
      (init_uart tn841 junk boot 1 9600 9 PARITY_NONE 1).bind
          (fun p => init_uart tn841 mem1 p.1 1 baud1 bs1 par1 sb1)
        = init_uart tn841 mem1 boot 1 baud1 bs1 par1 sb1 :=
  init_uart_invalid_params tn841 junk boot 1 9600 9 PARITY_NONE 1 (by decide) (by decide)

/-- C5: on an instance that already has a channel, `init_uart` returns `false`
for every parameter tuple and leaves the whole state unchanged, the rings of
the existing channel (contents, head and tail) and all registers included. -/
theorem init_uart_already_open (io : IoDefs) (mem : UART_DATA) (s : State)
    (i baud bs par sb : Nat) (u : UART_DATA) (hopen : s.uart_data i = some (some u)) :
    init_uart io mem s i baud bs par sb = some (s, false) :=
  init_uart_open_slot io mem s i baud bs par sb u hopen

theorem init_uart_already_open_witness :
    init_uart tn841 junk opened0 0 115200 7 PARITY_ODD 2 = some (opened0, false) :=
  init_uart_already_open tn841 junk opened0 0 115200 7 PARITY_ODD 2 (zero_indices junk)
    (by decide)

/-! ## `deinit_uart` -/

theorem uart_read_byte_closed (s : State) (i byte : Nat) (h : s.uart_data i = some none) :
    uart_read_byte s i byte = some (s, false, byte) := by
  simp only [uart_read_byte, h]

theorem uart_transmit_closed (io : IoDefs) (s : State) (i : Nat) (data : List Nat) (n : Nat)
    (h : s.uart_data i = some none) : uart_transmit io s i data n = some (s, false) := by
  simp only [uart_transmit, h]

theorem deinit_uart_closed (io : IoDefs) (s : State) (i : Nat)
    (h : s.uart_data i = some none) : deinit_uart io s i = some (s, false) := by
  simp only [deinit_uart, h]

theorem deinit_uart_open (io : IoDefs) (s : State) (i : Nat) (u : UART_DATA)
    (h : s.uart_data i = some (some u)) :
    ∃ s1, deinit_uart io s i = some (s1, true) ∧ s1.uart_data i = some none := by
  simp only [deinit_uart, h]
  exact ⟨_, rfl, uart_data_set_same _ (uart_data_some_index h) none⟩

/-- C6: `deinit_uart` on an instance without a channel returns `false` and
changes nothing; on an instance with a channel it returns `true` and leaves
the slot empty, after which `uart_read_byte` and `uart_transmit` on it return
`false` (changing nothing) and a second `deinit_uart` returns `false`. -/
theorem deinit_uart_lifecycle (io : IoDefs) (s : State) (i : Nat)
    (hclosed : s.uart_data i = some none)
    (t : State) (j : Nat) (u : UART_DATA) (hopen : t.uart_data j = some (some u)) :
    deinit_uart io s i = some (s, false) ∧
    ∃ t1, deinit_uart io t j = some (t1, true) ∧ t1.uart_data j = some none ∧
      (∀ byte, uart_read_byte t1 j byte = some (t1, false, byte)) ∧
      (∀ data n, uart_transmit io t1 j data n = some (t1, false)) ∧
      deinit_uart io t1 j = some (t1, false) := by
  refine ⟨deinit_uart_closed io s i hclosed, ?_⟩
  obtain ⟨t1, h1, h2⟩ := deinit_uart_open io t j u hopen
  exact ⟨t1, h1, h2, fun byte => uart_read_byte_closed t1 j byte h2,
    fun data n => uart_transmit_closed io t1 j data n h2, deinit_uart_closed io t1 j h2⟩

theorem deinit_uart_lifecycle_witness :
    deinit_uart tn841 boot 1 = some (boot, false) ∧
    ∃ t1, deinit_uart tn841 opened0 0 = some (t1, true) ∧ t1.uart_data 0 = some none ∧
      (∀ byte, uart_read_byte t1 0 byte = some (t1, false, byte)) ∧
      (∀ data n, uart_transmit tn841 t1 0 data n = some (t1, false)) ∧
      deinit_uart tn841 t1 0 = some (t1, false) :=
  deinit_uart_lifecycle tn841 boot 1 (by decide) opened0 0 (zero_indices junk) (by decide)

/-! ## Memory primitives -/

theorem read_eq (a : DataArray) (i : Nat) : a.read i = a.val[i]? := rfl

theorem read_defined (a : DataArray) {i : Nat} (h : i < 16) : ∃ v, a.read i = some v := by
  have hl : i < a.val.length := by rw [a.property]; exact h
  exact ⟨a.val[i], by rw [read_eq, List.getElem?_eq_getElem hl]⟩

theorem write_spec (a : DataArray) {i : Nat} (v : Nat) (h : i < 16) :
    ∃ d, a.write i v = some d ∧ ∀ j, d.val[j]? = if j = i then some v else a.val[j]? := by
  have hl : i < a.val.length := by rw [a.property]; exact h
  refine ⟨⟨a.val.set i v, by rw [List.length_set]; exact a.property⟩, ?_, fun j => ?_⟩
  · simp [DataArray.write, DATA_BUFFER_LEN, h]
  · by_cases hj : j = i
    · subst hj
      simp only [if_true]
      exact List.getElem?_set_self hl
    · simp only [hj, if_false]
      exact List.getElem?_set_ne (Ne.symm hj)

theorem memcpy_spec (dst : DataArray) (off : Nat) (src : List Nat) (n : Nat)
    (h1 : off + n ≤ 16) (h2 : n ≤ src.length) :
    ∃ d, memcpy dst off src n = some d ∧
      ∀ j, d.val[j]? = if off ≤ j ∧ j < off + n then src[j - off]? else dst.val[j]? := by
  have hd := dst.property
  refine ⟨⟨dst.val.take off ++ (src.take n ++ dst.val.drop (off + n)), ?_⟩, ?_, fun j => ?_⟩
  · simp only [List.length_append, List.length_take, List.length_drop, hd]
    omega
  · simp [memcpy, DATA_BUFFER_LEN, h1, h2]
  · simp only
    have hlen1 : (dst.val.take off).length = off := by
      rw [List.length_take, hd]; omega
    have hlen2 : (src.take n).length = n := by
      rw [List.length_take]; omega
    by_cases hj1 : j < off
    · rw [List.getElem?_append_left (by rw [hlen1]; exact hj1)]
      rw [List.getElem?_take_of_lt hj1]
      simp [Nat.not_le.mpr hj1]
    · have hj1' : off ≤ j := Nat.le_of_not_lt hj1
      rw [List.getElem?_append_right (by rw [hlen1]; exact hj1'), hlen1]
      by_cases hj2 : j < off + n
      · rw [List.getElem?_append_left (by rw [hlen2]; omega)]
        rw [List.getElem?_take_of_lt (by omega)]
        simp [hj1', hj2]
      · rw [List.getElem?_append_right (by rw [hlen2]; omega), hlen2]
        rw [List.getElem?_drop]
        simp only [hj2, and_false, if_false]
        congr 1
        omega

/-- The copy of `uart_transmit` for at most sixteen bytes: it is defined, moves
`head` by `n` modulo 16 and stores `data[k]` at slot `(head + k) mod 16`. -/
theorem tx_copy_spec (tx : DATA_BUFFER) (data : List Nat) (n : Nat)
    (hh : tx.head < 16) (hn : n ≤ 16) (hd : n ≤ data.length) :
    ∃ tx1, tx_copy tx data n = some tx1 ∧ tx1.head = (tx.head + n) % 16 ∧
      tx1.tail = tx.tail ∧
      ∀ j, j < 16 → tx1.data.val[j]? =
        if (j + 16 - tx.head) % 16 < n then data[(j + 16 - tx.head) % 16]?
        else tx.data.val[j]? := by
  unfold tx_copy
  simp only [DATA_BUFFER_LEN]
  by_cases hb : n < 16 - tx.head
  · obtain ⟨d, hd1, hd2⟩ := memcpy_spec tx.data tx.head data n (by omega) hd
    simp only [hb, if_true, hd1]
    refine ⟨_, rfl, ?_, rfl, fun j hj => ?_⟩
    · simp only
      omega
    · simp only [hd2]
      by_cases hc : tx.head ≤ j ∧ j < tx.head + n
      · have hm : (j + 16 - tx.head) % 16 = j - tx.head := by omega
        simp only [hc, and_self, if_true, hm]
        have : j - tx.head < n := by omega
        simp only [this, if_true]
      · have hm : ¬ (j + 16 - tx.head) % 16 < n := by omega
        simp only [hc, if_false, hm]
  · have hov : (n - (16 - tx.head)) % 256 = n + tx.head - 16 := by omega
    have hcnt : n - (n + tx.head - 16) = 16 - tx.head := by omega
    obtain ⟨d1, hd1, hd1s⟩ := memcpy_spec tx.data tx.head data (16 - tx.head) (by omega) (by omega)
    obtain ⟨d2, hd2, hd2s⟩ := memcpy_spec d1 0 (data.drop (16 - tx.head)) (n + tx.head - 16)
      (by omega) (by rw [List.length_drop]; omega)
    simp only [hb, if_false, hov, hcnt, hd1, hd2]
    refine ⟨_, rfl, ?_, rfl, fun j hj => ?_⟩
    · simp only
      omega
    · simp only [hd2s, hd1s, List.getElem?_drop]
      by_cases hc : j < n + tx.head - 16
      · have hm : (j + 16 - tx.head) % 16 = 16 - tx.head + (j - 0) := by omega
        have hlt : (j + 16 - tx.head) % 16 < n := by omega
        simp only [Nat.zero_le, true_and, Nat.zero_add, hc, if_true, hm, hlt]
        rw [← hm]; simp only [hlt, if_true]
      · simp only [Nat.zero_le, true_and, Nat.zero_add, hc, if_false]
        by_cases hc2 : tx.head ≤ j
        · have hm : (j + 16 - tx.head) % 16 = j - tx.head := by omega
          have hlt : j - tx.head < n := by omega
          have hlt2 : j < tx.head + (16 - tx.head) := by omega
          simp only [hc2, hlt2, and_self, if_true, hm, hlt]
        · have hm : ¬ (j + 16 - tx.head) % 16 < n := by omega
          simp only [hc2, false_and, if_false, hm]

/-! ## Rings as queues -/

theorem advance_lt {i : Nat} (h : i < 16) : advance i = (i + 1) % 16 := by
  unfold advance DATA_BUFFER_LEN
  split <;> omega

theorem ring_contents_empty {b : DATA_BUFFER} (h : b.tail = b.head) :
    ring_contents b = [] := by
  have hc : ring_count b = 0 := by unfold ring_count; omega
  simp [ring_contents, hc]

theorem ring_pop {b : DATA_BUFFER} (hr : in_range b) (hne : b.tail ≠ b.head) :
    ∃ v, b.data.read b.tail = some v ∧
      ring_contents b = v :: ring_contents { b with tail := advance b.tail } ∧
      in_range { b with tail := advance b.tail } := by
  unfold in_range at hr
  obtain ⟨v, hv⟩ := read_defined b.data hr.2
  refine ⟨v, hv, ?_, ?_⟩
  · have hadv := advance_lt hr.2
    have hc : ring_count b = ring_count { b with tail := advance b.tail } + 1 := by
      simp only [ring_count, hadv]
      omega
    rw [read_eq] at hv
    unfold ring_contents
    rw [hc, List.range_succ_eq_map, List.map_cons, List.map_map]
    congr 1
    · simp [Nat.mod_eq_of_lt hr.2, hv]
    · apply List.map_congr_left
      intro k _
      simp only [Function.comp, hadv]
      congr 2
      omega
  · simp only [in_range, advance_lt hr.2]
    omega

theorem ring_push {b : DATA_BUFFER} (hr : in_range b) (hc : ring_count b < 15) (v : Nat) :
    ∃ d, b.data.write b.head v = some d ∧
      ring_contents { data := d, head := advance b.head, tail := b.tail }
        = ring_contents b ++ [v] ∧
      in_range { data := d, head := advance b.head, tail := b.tail } ∧
      ring_count { data := d, head := advance b.head, tail := b.tail } = ring_count b + 1 := by
  unfold in_range at hr
  obtain ⟨d, hd, hds⟩ := write_spec b.data v hr.1
  have hadv := advance_lt hr.1
  have hcnt : ring_count { data := d, head := advance b.head, tail := b.tail }
      = ring_count b + 1 := by
    simp only [ring_count, hadv] at hc ⊢
    omega
  refine ⟨d, hd, ?_, ?_, hcnt⟩
  · unfold ring_contents
    rw [hcnt, List.range_succ, List.map_append]
    congr 1
    · apply List.map_congr_left
      intro k hk
      rw [List.mem_range] at hk
      simp only [ring_count] at hk
      have hne : (b.tail + k) % 16 ≠ b.head := by omega
      simp only [hds, hne, if_false]
    · have he : (b.tail + ring_count b) % 16 = b.head := by
        simp only [ring_count]
        omega
      simp [hds, he]
  · simp only [in_range, hadv]
    omega

/-! ## The operations on an open instance -/

theorem put_uart_data (s : State) {i : Nat} (hi : i = 0 ∨ i = 1) (u : UART_DATA) (r : USART) :
    (s.put i u r).uart_data i = some (some u) := by
  rcases hi with rfl | rfl <;> rfl

theorem put_usart (s : State) {i : Nat} (hi : i = 0 ∨ i = 1) (u : UART_DATA) (r : USART) :
    (s.put i u r).usart i = r := by
  rcases hi with rfl | rfl <;> rfl

theorem put_uart_data_other (s : State) {i j : Nat} (hij : i ≠ j) (u : UART_DATA) (r : USART) :
    (s.put i u r).uart_data j = s.uart_data j := by
  match i, j with
  | 0, 0 => exact absurd rfl hij
  | 1, 1 => exact absurd rfl hij
  | 0, 1 => rfl
  | 1, 0 => rfl
  | 0, (k + 2) => rfl
  | 1, (k + 2) => rfl
  | (k + 2), _ => rfl

theorem put_usart_other (s : State) {i j : Nat} (hi : i = 0 ∨ i = 1) (hj : j = 0 ∨ j = 1)
    (hij : i ≠ j) (u : UART_DATA) (r : USART) : (s.put i u r).usart j = s.usart j := by
  rcases hi with rfl | rfl <;> rcases hj with rfl | rfl <;> first | rfl | exact absurd rfl hij

theorem put_same (s : State) {i : Nat} {u : UART_DATA}
    (h : s.uart_data i = some (some u)) : s.put i u (s.usart i) = s := by
  rcases uart_data_some_index h with rfl | rfl
  · have h0 : s.uart_data0 = some u := by simpa [State.uart_data] using h
    simp only [State.put, State.usart, ← h0]
  · have h1 : s.uart_data1 = some u := by simpa [State.uart_data] using h
    simp only [State.put, State.usart, ← h1]

theorem UDRE_vect_open (io : IoDefs) {s : State} {i : Nat} {u : UART_DATA}
    (h : s.uart_data i = some (some u)) :
    UDRE_vect io s i =
      (udre_body (io.usart i) u (s.usart i)).map (fun p => s.put i p.1 p.2) := by
  rcases uart_data_some_index h with rfl | rfl
  · have h0 : s.uart_data0 = some u := by simpa [State.uart_data] using h
    simp only [UDRE_vect, USART0_UDRE_vect, h0, IoDefs.usart, State.usart]
    cases udre_body io.usart0 u s.usart0 <;> rfl
  · have h1 : s.uart_data1 = some u := by simpa [State.uart_data] using h
    simp only [UDRE_vect, USART1_UDRE_vect, h1, IoDefs.usart, State.usart]
    cases udre_body io.usart1 u s.usart1 <;> rfl

theorem RX_vect_open {s : State} {i : Nat} {u : UART_DATA}
    (h : s.uart_data i = some (some u)) :
    RX_vect s i = (rx_body u (s.usart i)).map (fun p => s.put i p.1 p.2) := by
  rcases uart_data_some_index h with rfl | rfl
  · have h0 : s.uart_data0 = some u := by simpa [State.uart_data] using h
    simp only [RX_vect, USART0_RX_vect, h0, State.usart]
    cases rx_body u s.usart0 <;> rfl
  · have h1 : s.uart_data1 = some u := by simpa [State.uart_data] using h
    simp only [RX_vect, USART1_RX_vect, h1, State.usart]
    cases rx_body u s.usart1 <;> rfl

theorem uart_read_byte_open {s : State} {i : Nat} {u : UART_DATA} (byte : Nat)
    (h : s.uart_data i = some (some u)) :
    uart_read_byte s i byte =
      if u.rx.tail ≠ u.rx.head then
        (u.rx.data.read u.rx.tail).map (fun v =>
          (s.put i { u with rx := { u.rx with tail := advance u.rx.tail } } (s.usart i), true, v))
      else some (s, false, byte) := by
  rcases uart_data_some_index h with rfl | rfl
  · simp only [uart_read_byte, h]
    split
    · cases u.rx.data.read u.rx.tail <;> rfl
    · rfl
  · simp only [uart_read_byte, h]
    split
    · cases u.rx.data.read u.rx.tail <;> rfl
    · rfl

theorem uart_transmit_open (io : IoDefs) {s : State} {i : Nat} {u : UART_DATA}
    (data : List Nat) (n : Nat) (h : s.uart_data i = some (some u)) :
    uart_transmit io s i data n =
      (tx_copy u.tx data n).bind (fun tx1 =>
        (tx1.data.read tx1.tail).map (fun byte =>
          (s.put i { u with tx := { tx1 with tail := advance tx1.tail } }
            (kick (io.usart i) (s.usart i) byte), false))) := by
  rcases uart_data_some_index h with rfl | rfl
  · simp only [uart_transmit, h, USART_0, if_true]
    cases tx_copy u.tx data n with
    | none => rfl
    | some tx1 =>
      simp only [Option.some_bind]
      cases tx1.data.read tx1.tail <;> rfl
  · simp only [uart_transmit, h, USART_0, USART_1, one_ne_zero, if_false, if_true]
    cases tx_copy u.tx data n with
    | none => rfl
    | some tx1 =>
      simp only [Option.some_bind]
      cases tx1.data.read tx1.tail <;> rfl

/-! ## The transmit path -/

theorem map_range_getElem (data : List Nat) {n : Nat} (h : n ≤ data.length) :
    (List.range n).map (fun k => (data[k]?).getD 0) = data.take n := by
  apply List.ext_getElem?
  intro m
  rw [List.getElem?_map]
  by_cases hm : m < n
  · rw [List.getElem?_range hm, List.getElem?_take_of_lt hm]
    simp only [Option.map_some', List.getElem?_eq_getElem (by omega : m < data.length),
      Option.getD_some]
  · have hm1 : n ≤ m := Nat.le_of_not_lt hm
    rw [List.getElem?_take_eq_none hm1, List.getElem?_eq_none (by simpa using hm1)]
    rfl

/-- The copy of `uart_transmit` appends the first `n` bytes of `data` to the
queue held by the transmit ring, provided they fit: `n` is less than 16 minus
the number of bytes held. -/
theorem tx_copy_contents (tx : DATA_BUFFER) (data : List Nat) (n : Nat)
    (hr : in_range tx) (hfit : n < 16 - ring_count tx) (hd : n ≤ data.length) :
    ∃ tx1, tx_copy tx data n = some tx1 ∧ in_range tx1 ∧ tx1.tail = tx.tail ∧
      ring_count tx1 = ring_count tx + n ∧
      ring_contents tx1 = ring_contents tx ++ data.take n := by
  obtain ⟨tx1, h1, hhead, htail, hdata⟩ := tx_copy_spec tx data n hr.1 (by omega) hd
  have hr1 := hr.1
  have hr2 := hr.2
  have hcnt : ring_count tx1 = ring_count tx + n := by
    simp only [ring_count, hhead, htail] at hfit ⊢
    omega
  refine ⟨tx1, h1, ⟨by omega, by omega⟩, htail, hcnt, ?_⟩
  unfold ring_contents
  rw [hcnt, List.range_add, List.map_append, List.map_map]
  congr 1
  · apply List.map_congr_left
    intro k hk
    rw [List.mem_range] at hk
    simp only [ring_count] at hk hfit
    have hlt : (tx.tail + k) % 16 < 16 := Nat.mod_lt _ (by norm_num)
    have hno : ¬ ((tx.tail + k) % 16 + 16 - tx.head) % 16 < n := by omega
    simp only [htail, hdata _ hlt, hno, if_false]
  · rw [← map_range_getElem data hd]
    apply List.map_congr_left
    intro k hk
    rw [List.mem_range] at hk
    simp only [ring_count] at hfit
    have hlt : (tx.tail + (ring_count tx + k)) % 16 < 16 := Nat.mod_lt _ (by norm_num)
    have hidx : ((tx.tail + (ring_count tx + k)) % 16 + 16 - tx.head) % 16 = k := by
      simp only [ring_count]
      omega
    simp only [Function.comp, htail, hdata _ hlt, hidx, hk, if_true]

theorem ring_contents_length (b : DATA_BUFFER) : (ring_contents b).length = ring_count b := by
  simp [ring_contents]

theorem ring_empty_of_contents_nil {b : DATA_BUFFER} (hr : in_range b)
    (h : ring_contents b = []) : b.tail = b.head := by
  have hl := ring_contents_length b
  rw [h] at hl
  unfold in_range at hr
  simp only [ring_count, List.length_nil] at hl
  omega

theorem ring_nonempty_of_contents_cons {b : DATA_BUFFER} {x : Nat} {q : List Nat}
    (h : ring_contents b = x :: q) : b.tail ≠ b.head := by
  intro he
  rw [ring_contents_empty he] at h
  exact List.noConfusion h

/-- Taking the byte at `tail` out of a ring that holds `x :: q`. -/
theorem ring_pop_cons {b : DATA_BUFFER} {x : Nat} {q : List Nat} (hr : in_range b)
    (h : ring_contents b = x :: q) :
    b.data.read b.tail = some x ∧
      ring_contents { b with tail := advance b.tail } = q ∧
      in_range { b with tail := advance b.tail } := by
  obtain ⟨v, hv, hc, hr1⟩ := ring_pop hr (ring_nonempty_of_contents_cons h)
  rw [h] at hc
  injection hc with hx hq
  subst hx
  exact ⟨hv, hq.symm, hr1⟩

/-- A data-register-empty firing on a transmit ring holding `x :: q` writes
`x` to the data register and leaves `q` in the ring. -/
theorem UDRE_vect_cons (io : IoDefs) {s : State} {i : Nat} {u : UART_DATA} {x : Nat}
    {q : List Nat} (h : s.uart_data i = some (some u)) (hr : in_range u.tx)
    (hq : ring_contents u.tx = x :: q) :
    ∃ u1, UDRE_vect io s i
        = some (s.put i u1 { s.usart i with UDR_tx := (s.usart i).UDR_tx ++ [x] }) ∧
      u1.rx = u.rx ∧ in_range u1.tx ∧ ring_contents u1.tx = q ∧
      u1.tx.head = u.tx.head ∧ u1.tx.data = u.tx.data := by
  obtain ⟨hread, hq1, hr1⟩ := ring_pop_cons hr hq
  have hne := ring_nonempty_of_contents_cons hq
  refine ⟨{ u with tx := { u.tx with tail := advance u.tx.tail } }, ?_, rfl, hr1, hq1, rfl, rfl⟩
  rw [UDRE_vect_open io h]
  simp only [udre_body, hne, ne_eq, not_false_eq_true, if_true, hread, Option.map_some']

/-- A data-register-empty firing on an empty transmit ring only clears the
`UDRIE` bit of `UCSRnB`. -/
theorem UDRE_vect_empty (io : IoDefs) {s : State} {i : Nat} {u : UART_DATA}
    (h : s.uart_data i = some (some u)) (he : u.tx.tail = u.tx.head) :
    UDRE_vect io s i = some (s.put i u { s.usart i with
      UCSRB := reg_andnot (s.usart i).UCSRB (bit (io.usart i).UDRIE) }) := by
  rw [UDRE_vect_open io h]
  simp only [udre_body, he, ne_eq, not_true_eq_false, if_false, Option.map_some']

/-- The operation `uart_transmit` on a transmit ring that holds `x :: q` once the `n` new
bytes are appended: `x` is written to the data register, `q` stays queued. -/
theorem uart_transmit_cons (io : IoDefs) {s : State} {i : Nat} {u : UART_DATA}
    (data : List Nat) (n : Nat) {x : Nat} {q : List Nat}
    (h : s.uart_data i = some (some u)) (hr : in_range u.tx)
    (hfit : n < 16 - ring_count u.tx) (hd : n ≤ data.length)
    (hq : ring_contents u.tx ++ data.take n = x :: q) :
    ∃ u1, uart_transmit io s i data n
        = some (s.put i u1 (kick (io.usart i) (s.usart i) x), false) ∧
      u1.rx = u.rx ∧ in_range u1.tx ∧ ring_contents u1.tx = q := by
  obtain ⟨tx1, hcopy, hr1, _, _, hc1⟩ := tx_copy_contents u.tx data n hr hfit hd
  rw [hq] at hc1
  obtain ⟨hread, hq1, hr2⟩ := ring_pop_cons hr1 hc1
  refine ⟨{ u with tx := { tx1 with tail := advance tx1.tail } }, ?_, rfl, hr2, hq1⟩
  rw [uart_transmit_open io data n h]
  simp only [hcopy, Option.some_bind, hread, Option.map_some']

/-- A successful `init_uart` leaves in the slot the block from `malloc` with its
four indices zeroed, in the instance's registers the programmed values, and
the global interrupt flag set; the slot was empty before. -/
theorem init_uart_success {io : IoDefs} {mem : UART_DATA} {s s1 : State}
    {i baud bs par sb : Nat} (h : init_uart io mem s i baud bs par sb = some (s1, true)) :
    s.uart_data i = some none ∧
    ∃ r, program_usart (io.usart i) (s.usart i) baud bs par sb = some r ∧
      s1 = { s.put i (zero_indices mem) r with SREG_I := true } := by
  cases hs : s.uart_data i with
  | none => simp [init_uart, hs] at h
  | some p =>
    cases p with
    | some u => simp [init_uart_open_slot io mem s i baud bs par sb u hs] at h
    | none =>
      refine ⟨rfl, ?_⟩
      by_cases hv : params_ok bs par sb
      · rcases uart_data_some_index hs with rfl | rfl
        · have h0 : s.uart_data0 = none := by simpa [State.uart_data] using hs
          rw [init_uart_closed0 io mem s baud bs par sb h0 hv] at h
          cases hp : program_usart io.usart0 s.usart0 baud bs par sb with
          | none => simp [hp] at h
          | some r =>
            simp only [hp, Option.map_some', Option.some.injEq, Prod.mk.injEq, and_true] at h
            exact ⟨r, hp, h.symm⟩
        · have h1 : s.uart_data1 = none := by simpa [State.uart_data] using hs
          rw [init_uart_closed1 io mem s baud bs par sb h1 hv] at h
          cases hp : program_usart io.usart1 s.usart1 baud bs par sb with
          | none => simp [hp] at h
          | some r =>
            simp only [hp, Option.map_some', Option.some.injEq, Prod.mk.injEq, and_true] at h
            exact ⟨r, hp, h.symm⟩
      · simp [init_uart_rejects io mem s i baud bs par sb hs hv] at h

theorem init_uart_success_slot {io : IoDefs} {mem : UART_DATA} {s s1 : State}
    {i baud bs par sb : Nat} (h : init_uart io mem s i baud bs par sb = some (s1, true)) :
    s1.uart_data i = some (some (zero_indices mem)) := by
  obtain ⟨hs, r, _, rfl⟩ := init_uart_success h
  rcases uart_data_some_index hs with rfl | rfl <;> rfl

/-- Firing the data-register-empty handler `k` times on a transmit ring that
holds `q` writes the first `k` bytes of `q` (all of `q` when `k` exceeds its
length) and leaves the rest queued. -/
theorem udre_fire_spec (io : IoDefs) (i : Nat) (k : Nat) :
    ∀ (s : State) (u : UART_DATA) (q : List Nat), s.uart_data i = some (some u) →
      in_range u.tx → ring_contents u.tx = q →
      ∃ sk uk, udre_fire io i k s = some sk ∧ sk.uart_data i = some (some uk) ∧
        in_range uk.tx ∧ ring_contents uk.tx = q.drop k ∧
        (sk.usart i).UDR_tx = (s.usart i).UDR_tx ++ q.take k := by
  induction k with
  | zero =>
    intro s u q h hr hq
    exact ⟨s, u, rfl, h, hr, by simpa using hq, by simp⟩
  | succ k ih =>
    intro s u q h hr hq
    have hi := uart_data_some_index h
    cases q with
    | nil =>
      have he := ring_empty_of_contents_nil hr hq
      have hstep := UDRE_vect_empty io h he
      obtain ⟨sk, uk, h1, h2, h3, h4, h5⟩ :=
        ih (s.put i u { s.usart i with
          UCSRB := reg_andnot (s.usart i).UCSRB (bit (io.usart i).UDRIE) }) u []
          (put_uart_data s hi u _) hr hq
      refine ⟨sk, uk, ?_, h2, h3, by simpa using h4, ?_⟩
      · simp only [udre_fire, hstep, Option.some_bind, h1]
      · rw [h5, put_usart s hi]
        simp
    | cons x q =>
      obtain ⟨u1, hstep, _, hr1, hq1, _, _⟩ := UDRE_vect_cons io h hr hq
      obtain ⟨sk, uk, h1, h2, h3, h4, h5⟩ :=
        ih (s.put i u1 { s.usart i with UDR_tx := (s.usart i).UDR_tx ++ [x] }) u1 q
          (put_uart_data s hi u1 _) hr1 hq1
      refine ⟨sk, uk, ?_, h2, h3, by simpa using h4, ?_⟩
      · simp only [udre_fire, hstep, Option.some_bind, h1]
      · rw [h5, put_usart s hi]
        simp

/-- C7: on a freshly opened instance, `uart_transmit` of `n` bytes (`1 <= n < 16`)
writes the first byte to the transmit-data register within the call; after `k`
data-register-empty firings (`k <= n`) the bytes written are the first `k + 1`
bytes in order, so that `n - 1` firings have written all `n` bytes and the
`n`-th writes nothing; after the `n` firings the transmit ring is empty
(`tail == head`). -/
theorem transmit_round_trip (io : IoDefs) (mem : UART_DATA) (s0 s : State)
    (i baud bs par sb : Nat) (data : List Nat)
    (hfresh : init_uart io mem s0 i baud bs par sb = some (s, true))
    (h1 : 1 ≤ data.length) (h16 : data.length < 16) :
    ∃ s1 r, uart_transmit io s i data data.length = some (s1, r) ∧
      (s1.usart i).UDR_tx = (s.usart i).UDR_tx ++ data.take 1 ∧
      (∀ k, k ≤ data.length → ∃ sk, udre_fire io i k s1 = some sk ∧
        (sk.usart i).UDR_tx = (s.usart i).UDR_tx ++ data.take (k + 1)) ∧
      ∃ sn u, udre_fire io i data.length s1 = some sn ∧
        (sn.usart i).UDR_tx = (s.usart i).UDR_tx ++ data ∧
        sn.uart_data i = some (some u) ∧ u.tx.tail = u.tx.head := by
  have hslot := init_uart_success_slot hfresh
  have hi := uart_data_some_index hslot
  have hr : in_range (zero_indices mem).tx := ⟨by simp [zero_indices], by simp [zero_indices]⟩
  have hcnt : ring_count (zero_indices mem).tx = 0 := by simp [ring_count, zero_indices]
  have hq0 : ring_contents (zero_indices mem).tx = [] := ring_contents_empty rfl
  cases data with
  | nil => simp at h1
  | cons x q =>
    obtain ⟨u1, htx, _, hr1, hq1⟩ :=
      uart_transmit_cons io (x :: q) (x :: q).length (x := x) (q := q) hslot hr
        (by rw [hcnt]; exact h16) (Nat.le_refl _) (by rw [hq0]; simp)
    refine ⟨_, false, htx, ?_, ?_, ?_⟩
    · rw [put_usart s hi]
      simp [kick]
    · intro k _
      obtain ⟨sk, uk, hk1, _, _, _, hk5⟩ :=
        udre_fire_spec io i k _ u1 q (put_uart_data s hi u1 _) hr1 hq1
      refine ⟨sk, hk1, ?_⟩
      rw [hk5, put_usart s hi]
      simp [kick]
    · obtain ⟨sn, un, hn1, hn2, hn3, hn4, hn5⟩ :=
        udre_fire_spec io i (x :: q).length _ u1 q (put_uart_data s hi u1 _) hr1 hq1
      refine ⟨sn, un, hn1, ?_, hn2, ?_⟩
      · rw [hn5, put_usart s hi]
        simp [kick]
      · apply ring_empty_of_contents_nil hn3
        rw [hn4]
        simp

theorem transmit_round_trip_witness :
    ∃ s1 r, uart_transmit tn841 opened0 0 [1, 2, 3] [1, 2, 3].length = some (s1, r) ∧
      (s1.usart 0).UDR_tx = (opened0.usart 0).UDR_tx ++ [1, 2, 3].take 1 ∧
      (∀ k, k ≤ [1, 2, 3].length → ∃ sk, udre_fire tn841 0 k s1 = some sk ∧
        (sk.usart 0).UDR_tx = (opened0.usart 0).UDR_tx ++ [1, 2, 3].take (k + 1)) ∧
      ∃ sn u, udre_fire tn841 0 [1, 2, 3].length s1 = some sn ∧
        (sn.usart 0).UDR_tx = (opened0.usart 0).UDR_tx ++ [1, 2, 3] ∧
        sn.uart_data 0 = some (some u) ∧ u.tx.tail = u.tx.head :=
  transmit_round_trip tn841 junk boot opened0 0 9600 8 PARITY_NONE 1 [1, 2, 3]
    init_uart_boot_opened0 (by decide) (by decide)

/-! ## The receive path -/

theorem hw_receive_uart_data (s : State) (i j d : Nat) :
    (hw_receive s i d).uart_data j = s.uart_data j := by
  match i, j with
  | 0, 0 => rfl
  | 0, 1 => rfl
  | 0, (k + 2) => rfl
  | 1, 0 => rfl
  | 1, 1 => rfl
  | 1, (k + 2) => rfl
  | (k + 2), _ => rfl

theorem hw_receive_UDR_rx (s : State) {i : Nat} (hi : i = 0 ∨ i = 1) (d : Nat) :
    ((hw_receive s i d).usart i).UDR_rx = d := by
  rcases hi with rfl | rfl <;> rfl

/-- A receive-complete firing that finds room in the receive ring appends the
byte read from the data register to the queue the ring holds. -/
theorem RX_vect_push {s : State} {i : Nat} {u : UART_DATA}
    (h : s.uart_data i = some (some u)) (hr : in_range u.rx) (hc : ring_count u.rx < 15) :
    ∃ u1, RX_vect s i = some (s.put i u1 (s.usart i)) ∧ u1.tx = u.tx ∧ in_range u1.rx ∧
      ring_contents u1.rx = ring_contents u.rx ++ [(s.usart i).UDR_rx] ∧
      ring_count u1.rx = ring_count u.rx + 1 := by
  obtain ⟨d, hd, hq, hr1, hc1⟩ := ring_push hr hc (s.usart i).UDR_rx
  refine ⟨{ u with rx := { data := d, head := advance u.rx.head, tail := u.rx.tail } },
    ?_, rfl, hr1, hq, hc1⟩
  rw [RX_vect_open h]
  simp only [rx_body, hd, Option.map_some']

theorem rx_fire_spec (i : Nat) (ds : List Nat) :
    ∀ (s : State) (u : UART_DATA), s.uart_data i = some (some u) → in_range u.rx →
      ring_count u.rx + ds.length < 16 →
      ∃ s1 u1, rx_fire i ds s = some s1 ∧ s1.uart_data i = some (some u1) ∧
        in_range u1.rx ∧ ring_contents u1.rx = ring_contents u.rx ++ ds := by
  induction ds with
  | nil =>
    intro s u h hr _
    exact ⟨s, u, rfl, h, hr, by simp⟩
  | cons d ds ih =>
    intro s u h hr hc
    have hi := uart_data_some_index h
    simp only [List.length_cons] at hc
    have h' : (hw_receive s i d).uart_data i = some (some u) := by
      rw [hw_receive_uart_data]; exact h
    obtain ⟨u1, hstep, _, hr1, hq1, hc1⟩ := RX_vect_push h' hr (by omega)
    rw [hw_receive_UDR_rx s hi d] at hq1
    obtain ⟨s2, u2, h1, h2, h3, h4⟩ :=
      ih ((hw_receive s i d).put i u1 ((hw_receive s i d).usart i)) u1
        (put_uart_data _ hi u1 _) hr1 (by omega)
    refine ⟨s2, u2, ?_, h2, h3, ?_⟩
    · simp only [rx_fire, hstep, Option.some_bind, h1]
    · rw [h4, hq1]
      simp

/-- The call `uart_read_byte` on a receive ring holding `x :: q` returns `true`, stores `x`
and leaves `q` in the ring. -/
theorem uart_read_byte_cons {s : State} {i : Nat} {u : UART_DATA} {x : Nat} {q : List Nat}
    (byte : Nat) (h : s.uart_data i = some (some u)) (hr : in_range u.rx)
    (hq : ring_contents u.rx = x :: q) :
    ∃ u1, uart_read_byte s i byte = some (s.put i u1 (s.usart i), true, x) ∧
      u1.tx = u.tx ∧ in_range u1.rx ∧ ring_contents u1.rx = q := by
  obtain ⟨hread, hq1, hr1⟩ := ring_pop_cons hr hq
  have hne := ring_nonempty_of_contents_cons hq
  refine ⟨{ u with rx := { u.rx with tail := advance u.rx.tail } }, ?_, rfl, hr1, hq1⟩
  rw [uart_read_byte_open byte h]
  simp only [hne, ne_eq, not_false_eq_true, if_true, hread, Option.map_some']

theorem uart_read_byte_empty {s : State} {i : Nat} {u : UART_DATA} (byte : Nat)
    (h : s.uart_data i = some (some u)) (he : u.rx.tail = u.rx.head) :
    uart_read_byte s i byte = some (s, false, byte) := by
  rw [uart_read_byte_open byte h]
  simp only [he, ne_eq, not_true_eq_false, if_false]

theorem read_n_spec (i : Nat) (q : List Nat) :
    ∀ (s : State) (u : UART_DATA) (byte : Nat), s.uart_data i = some (some u) →
      in_range u.rx → ring_contents u.rx = q →
      ∃ s2 u2, read_n i q.length s byte = some (s2, q.map (fun d => (true, d))) ∧
        s2.uart_data i = some (some u2) ∧ in_range u2.rx ∧ ring_contents u2.rx = [] := by
  induction q with
  | nil =>
    intro s u byte h hr hq
    exact ⟨s, u, rfl, h, hr, hq⟩
  | cons x q ih =>
    intro s u byte h hr hq
    have hi := uart_data_some_index h
    obtain ⟨u1, hstep, _, hr1, hq1⟩ := uart_read_byte_cons byte h hr hq
    obtain ⟨s2, u2, h1, h2, h3, h4⟩ :=
      ih (s.put i u1 (s.usart i)) u1 x (put_uart_data s hi u1 _) hr1 hq1
    refine ⟨s2, u2, ?_, h2, h3, h4⟩
    simp only [List.length_cons, read_n, hstep, h1, List.map_cons]

/-- C8: on an open instance whose receive ring is empty with in-range indices,
`n < 16` receive-complete firings delivering `d1..dn` followed by `n + 1` calls
of `uart_read_byte` return `(true, d1), ..., (true, dn)` in that order, and the
last call returns `false` (leaving the state and the caller's byte as they were). -/
theorem receive_fifo (s : State) (i : Nat) (u : UART_DATA) (ds : List Nat) (byte : Nat)
    (hopen : s.uart_data i = some (some u)) (hempty : u.rx.tail = u.rx.head)
    (hrange : u.rx.head < 16) (hn : ds.length < 16) :
    ∃ s1 s2, rx_fire i ds s = some s1 ∧
      read_n i ds.length s1 byte = some (s2, ds.map (fun d => (true, d))) ∧
      ∀ b, uart_read_byte s2 i b = some (s2, false, b) := by
  have hr : in_range u.rx := ⟨hrange, by rw [hempty]; exact hrange⟩
  have hq0 : ring_contents u.rx = [] := ring_contents_empty hempty
  have hc0 : ring_count u.rx = 0 := by
    rw [← ring_contents_length, hq0]; rfl
  obtain ⟨s1, u1, h1, h2, h3, h4⟩ := rx_fire_spec i ds s u hopen hr (by omega)
  rw [hq0, List.nil_append] at h4
  obtain ⟨s2, u2, h5, h6, h7, h8⟩ := read_n_spec i ds s1 u1 byte h2 h3 h4
  exact ⟨s1, s2, h1, h5, fun b =>
    uart_read_byte_empty b h6 (ring_empty_of_contents_nil h7 h8)⟩

theorem receive_fifo_witness :
    ∃ s1 s2, rx_fire 0 [7, 8, 9] opened0 = some s1 ∧
      read_n 0 [7, 8, 9].length s1 0 = some (s2, [7, 8, 9].map (fun d => (true, d))) ∧
      ∀ b, uart_read_byte s2 0 b = some (s2, false, b) :=
  receive_fifo opened0 0 (zero_indices junk) [7, 8, 9] 0 (by decide) (by decide) (by decide)
    (by decide)

/-! ## Register bits -/

theorem testBit_bit (b p : Nat) : (bit b).testBit p = decide (b = p) := by
  unfold bit
  rw [Nat.one_shiftLeft, Nat.testBit_two_pow]

theorem testBit_reg_or (r m p : Nat) :
    (reg_or r m).testBit p = (decide (p < 8) && (r.testBit p || m.testBit p)) := by
  unfold reg_or
  rw [show (256 : Nat) = 2 ^ 8 from rfl, Nat.testBit_mod_two_pow, Nat.testBit_or]

theorem testBit_reg_andnot (r m p : Nat) :
    (reg_andnot r m).testBit p = (decide (p < 8) && (r.testBit p && !m.testBit p)) := by
  unfold reg_andnot
  rw [show (256 : Nat) = 2 ^ 8 from rfl, Nat.testBit_mod_two_pow, Nat.testBit_and,
    Nat.testBit_xor, show (0xFFFF : Nat) = 2 ^ 16 - 1 from rfl, Nat.testBit_two_pow_sub_one]
  by_cases hp : p < 8
  · have hp16 : p < 16 := by omega
    simp [hp, hp16]
  · simp [hp]

theorem tx_copy_tail {tx tx1 : DATA_BUFFER} {data : List Nat} {n : Nat}
    (h : tx_copy tx data n = some tx1) : tx1.tail = tx.tail := by
  unfold tx_copy at h
  split at h
  · split at h
    · simp at h
    · simp only [Option.some.injEq] at h
      rw [← h]
  · simp only at h
    split at h
    · simp at h
    · split at h
      · simp at h
      · simp only [Option.some.injEq] at h
        rw [← h]

/-- C9: on an open instance, (1) a data-register-empty firing with an empty
transmit ring clears the interrupt enable `UDRIE` and leaves both rings and the
data register as they were; (2) every `uart_transmit` that returns sets `UDRIE`
and writes, within the call, the byte found at the ring's tail after the copy;
(3) for in-range indices and at most 16 bytes the call does return, and when
the ring was empty and at least one byte is passed the byte written is the
first byte passed. -/
theorem idle_draining_transition (io : IoDefs) (s : State) (i : Nat) (u : UART_DATA)
    (hbit : (io.usart i).UDRIE < 8) (hopen : s.uart_data i = some (some u)) :
    (u.tx.tail = u.tx.head →
      ∃ s1, UDRE_vect io s i = some s1 ∧ udrie io s1 i = false ∧
        s1.uart_data i = some (some u) ∧ (s1.usart i).UDR_tx = (s.usart i).UDR_tx ∧
        (s1.usart i).UDR_rx = (s.usart i).UDR_rx) ∧
    (∀ data n s1 r, uart_transmit io s i data n = some (s1, r) →
      udrie io s1 i = true ∧
      ∃ u1 byte, s1.uart_data i = some (some u1) ∧ u1.tx.data.read u.tx.tail = some byte ∧
        (s1.usart i).UDR_tx = (s.usart i).UDR_tx ++ [byte]) ∧
    (∀ data n, u.tx.head < 16 → u.tx.tail < 16 → n ≤ 16 → n ≤ data.length →
      ∃ s1 r, uart_transmit io s i data n = some (s1, r) ∧
        (u.tx.tail = u.tx.head → 1 ≤ n →
          (s1.usart i).UDR_tx = (s.usart i).UDR_tx ++ data.take 1)) := by
  have hi := uart_data_some_index hopen
  refine ⟨fun he => ?_, fun data n s1 r htx => ?_, fun data n hh ht hn hd => ?_⟩
  · refine ⟨_, UDRE_vect_empty io hopen he, ?_, put_uart_data s hi u _, ?_, ?_⟩
    · simp only [udrie, put_usart s hi, testBit_reg_andnot, testBit_bit]
      simp
    · rw [put_usart s hi]
    · rw [put_usart s hi]
  · rw [uart_transmit_open io data n hopen] at htx
    cases hc : tx_copy u.tx data n with
    | none => simp [hc] at htx
    | some tx1 =>
      have htail := tx_copy_tail hc
      cases hb : tx1.data.read tx1.tail with
      | none => simp [hc, hb] at htx
      | some byte =>
        simp only [hc, Option.some_bind, hb, Option.map_some', Option.some.injEq,
          Prod.mk.injEq] at htx
        obtain ⟨rfl, _⟩ := htx
        refine ⟨?_, _, byte, put_uart_data s hi _ _, ?_, ?_⟩
        · simp only [udrie, put_usart s hi, kick, testBit_reg_or, testBit_bit]
          simp [hbit]
        · rw [← htail]; exact hb
        · rw [put_usart s hi]; rfl
  · obtain ⟨tx1, hc, _, htail, hdata⟩ := tx_copy_spec u.tx data n hh hn hd
    have ht1 : tx1.tail < 16 := by rw [htail]; exact ht
    obtain ⟨byte, hb⟩ := read_defined tx1.data ht1
    refine ⟨s.put i { u with tx := { tx1 with tail := advance tx1.tail } }
      (kick (io.usart i) (s.usart i) byte), false, ?_, fun he h1 => ?_⟩
    · rw [uart_transmit_open io data n hopen]
      simp only [hc, Option.some_bind, hb, Option.map_some']
    · rw [put_usart s hi]
      have hx := hdata u.tx.tail ht
      have hm : (u.tx.tail + 16 - u.tx.head) % 16 = 0 := by omega
      rw [hm] at hx
      simp only [h1, Nat.lt_of_lt_of_le Nat.zero_lt_one h1, if_true] at hx
      rw [read_eq, htail, hx] at hb
      cases data with
      | nil => simp at hb
      | cons x rest =>
        simp only [List.getElem?_cons_zero, Option.some.injEq] at hb
        simp [kick, hb]

theorem idle_draining_transition_witness :
    (uart_transmit tn841 opened0 0 [65, 66] 2).isSome = true ∧
    ((zero_indices junk).tx.tail = (zero_indices junk).tx.head →
      ∃ s1, UDRE_vect tn841 opened0 0 = some s1 ∧ udrie tn841 s1 0 = false ∧
        s1.uart_data 0 = some (some (zero_indices junk)) ∧
        (s1.usart 0).UDR_tx = (opened0.usart 0).UDR_tx ∧
        (s1.usart 0).UDR_rx = (opened0.usart 0).UDR_rx) ∧
    (∀ data n s1 r, uart_transmit tn841 opened0 0 data n = some (s1, r) →
      udrie tn841 s1 0 = true ∧
      ∃ u1 byte, s1.uart_data 0 = some (some u1) ∧
        u1.tx.data.read (zero_indices junk).tx.tail = some byte ∧
        (s1.usart 0).UDR_tx = (opened0.usart 0).UDR_tx ++ [byte]) ∧
    (∀ data n, (zero_indices junk).tx.head < 16 → (zero_indices junk).tx.tail < 16 →
      n ≤ 16 → n ≤ data.length →
      ∃ s1 r, uart_transmit tn841 opened0 0 data n = some (s1, r) ∧
        ((zero_indices junk).tx.tail = (zero_indices junk).tx.head → 1 ≤ n →
          (s1.usart 0).UDR_tx = (opened0.usart 0).UDR_tx ++ data.take 1)) :=
  ⟨by decide, idle_draining_transition tn841 opened0 0 (zero_indices junk) (by decide)
    (by decide)⟩

/-! ## Independence of the two instances -/

theorem view_put (s : State) {i j : Nat} (hi : i = 0 ∨ i = 1) (hj : j = 0 ∨ j = 1)
    (hij : i ≠ j) (u : UART_DATA) (r : USART) :
    instance_view (s.put i u r) j = instance_view s j := by
  simp only [instance_view, put_uart_data_other s hij, put_usart_other s hi hj hij]

theorem view_SREG_I (s : State) (j : Nat) (b : Bool) :
    instance_view { s with SREG_I := b } j = instance_view s j := by
  match j with
  | 0 => rfl
  | 1 => rfl
  | (k + 2) => rfl

/-- Every defined `init_uart` either fails and returns the state it was given, or
succeeds with the slot filled, the registers programmed and interrupts enabled. -/
theorem init_uart_result {io : IoDefs} {mem : UART_DATA} {s s1 : State}
    {i baud bs par sb : Nat} {r : Bool}
    (h : init_uart io mem s i baud bs par sb = some (s1, r)) :
    (r = false ∧ s1 = s) ∨
    (r = true ∧ ∃ p, s1 = { s.put i (zero_indices mem) p with SREG_I := true }) := by
  cases r with
  | true =>
    obtain ⟨_, p, _, hp⟩ := init_uart_success h
    exact Or.inr ⟨rfl, p, hp⟩
  | false =>
    left
    refine ⟨rfl, ?_⟩
    cases hs : s.uart_data i with
    | none => simp [init_uart, hs] at h
    | some slot =>
      cases slot with
      | some u =>
        rw [init_uart_open_slot io mem s i baud bs par sb u hs] at h
        simp only [Option.some.injEq, Prod.mk.injEq, and_true] at h
        exact h.symm
      | none =>
        by_cases hv : params_ok bs par sb
        · rcases uart_data_some_index hs with rfl | rfl
          · have h0 : s.uart_data0 = none := by simpa [State.uart_data] using hs
            rw [init_uart_closed0 io mem s baud bs par sb h0 hv] at h
            cases hp : program_usart io.usart0 s.usart0 baud bs par sb <;> simp [hp] at h
          · have h1 : s.uart_data1 = none := by simpa [State.uart_data] using hs
            rw [init_uart_closed1 io mem s baud bs par sb h1 hv] at h
            cases hp : program_usart io.usart1 s.usart1 baud bs par sb <;> simp [hp] at h
        · rw [init_uart_rejects io mem s i baud bs par sb hs hv] at h
          simp only [Option.some.injEq, Prod.mk.injEq, and_true] at h
          exact h.symm

theorem init_uart_view {io : IoDefs} {mem : UART_DATA} {s s1 : State}
    {i j baud bs par sb : Nat} {r : Bool} (hi : i = 0 ∨ i = 1) (hj : j = 0 ∨ j = 1)
    (hij : i ≠ j) (h : init_uart io mem s i baud bs par sb = some (s1, r)) :
    instance_view s1 j = instance_view s j := by
  rcases init_uart_result h with ⟨_, rfl⟩ | ⟨_, p, rfl⟩
  · rfl
  · rw [view_SREG_I, view_put s hi hj hij]

theorem deinit_uart_view {io : IoDefs} {s s1 : State} {i j : Nat} {r : Bool}
    (hi : i = 0 ∨ i = 1) (hj : j = 0 ∨ j = 1) (hij : i ≠ j)
    (h : deinit_uart io s i = some (s1, r)) :
    instance_view s1 j = instance_view s j := by
  unfold deinit_uart at h
  rcases hi with rfl | rfl <;> rcases hj with rfl | rfl
  · exact absurd rfl hij
  · cases h0 : s.uart_data0 with
    | none =>
      simp only [State.uart_data, h0, Option.some.injEq, Prod.mk.injEq] at h
      rw [← h.1]
    | some u =>
      simp only [State.uart_data, h0, Option.some.injEq, Prod.mk.injEq] at h
      rw [← h.1]
      rfl
  · cases h1 : s.uart_data1 with
    | none =>
      simp only [State.uart_data, h1, Option.some.injEq, Prod.mk.injEq] at h
      rw [← h.1]
    | some u =>
      simp only [State.uart_data, h1, Option.some.injEq, Prod.mk.injEq] at h
      rw [← h.1]
      rfl
  · exact absurd rfl hij

theorem uart_transmit_view {io : IoDefs} {s s1 : State} {i j n : Nat} {data : List Nat}
    {r : Bool} (hi : i = 0 ∨ i = 1) (hj : j = 0 ∨ j = 1) (hij : i ≠ j)
    (h : uart_transmit io s i data n = some (s1, r)) :
    instance_view s1 j = instance_view s j := by
  cases hs : s.uart_data i with
  | none => simp [uart_transmit, hs] at h
  | some slot =>
    cases slot with
    | none =>
      rw [uart_transmit_closed io s i data n hs] at h
      simp only [Option.some.injEq, Prod.mk.injEq] at h
      rw [← h.1]
    | some u =>
      rw [uart_transmit_open io data n hs] at h
      cases hc : tx_copy u.tx data n with
      | none => simp [hc] at h
      | some tx1 =>
        cases hb : tx1.data.read tx1.tail with
        | none => simp [hc, hb] at h
        | some byte =>
          simp only [hc, Option.some_bind, hb, Option.map_some', Option.some.injEq,
            Prod.mk.injEq] at h
          rw [← h.1]
          exact view_put s hi hj hij _ _

theorem uart_read_byte_view {s s1 : State} {i j byte v : Nat} {r : Bool}
    (hi : i = 0 ∨ i = 1) (hj : j = 0 ∨ j = 1) (hij : i ≠ j)
    (h : uart_read_byte s i byte = some (s1, r, v)) :
    instance_view s1 j = instance_view s j := by
  cases hs : s.uart_data i with
  | none => simp [uart_read_byte, hs] at h
  | some slot =>
    cases slot with
    | none =>
      rw [uart_read_byte_closed s i byte hs] at h
      simp only [Option.some.injEq, Prod.mk.injEq] at h
      rw [← h.1]
    | some u =>
      rw [uart_read_byte_open byte hs] at h
      split at h
      · cases hb : u.rx.data.read u.rx.tail with
        | none => simp [hb] at h
        | some x =>
          simp only [hb, Option.map_some', Option.some.injEq, Prod.mk.injEq] at h
          rw [← h.1]
          exact view_put s hi hj hij _ _
      · simp only [Option.some.injEq, Prod.mk.injEq] at h
        rw [← h.1]

theorem UDRE_vect_view {io : IoDefs} {s s1 : State} {i j : Nat}
    (hi : i = 0 ∨ i = 1) (hj : j = 0 ∨ j = 1) (hij : i ≠ j)
    (h : UDRE_vect io s i = some s1) : instance_view s1 j = instance_view s j := by
  cases hs : s.uart_data i with
  | none => rcases hi with rfl | rfl <;> simp [State.uart_data] at hs
  | some slot =>
    cases slot with
    | none =>
      rcases hi with rfl | rfl
      · have h0 : s.uart_data0 = none := by simpa [State.uart_data] using hs
        simp [UDRE_vect, USART0_UDRE_vect, h0] at h
      · have h1 : s.uart_data1 = none := by simpa [State.uart_data] using hs
        simp [UDRE_vect, USART1_UDRE_vect, h1] at h
    | some u =>
      rw [UDRE_vect_open io hs] at h
      cases hb : udre_body (io.usart i) u (s.usart i) with
      | none => simp [hb] at h
      | some p =>
        simp only [hb, Option.map_some', Option.some.injEq] at h
        rw [← h]
        exact view_put s hi hj hij _ _

theorem RX_vect_view {s s1 : State} {i j : Nat}
    (hi : i = 0 ∨ i = 1) (hj : j = 0 ∨ j = 1) (hij : i ≠ j)
    (h : RX_vect s i = some s1) : instance_view s1 j = instance_view s j := by
  cases hs : s.uart_data i with
  | none => rcases hi with rfl | rfl <;> simp [State.uart_data] at hs
  | some slot =>
    cases slot with
    | none =>
      rcases hi with rfl | rfl
      · have h0 : s.uart_data0 = none := by simpa [State.uart_data] using hs
        simp [RX_vect, USART0_RX_vect, h0] at h
      · have h1 : s.uart_data1 = none := by simpa [State.uart_data] using hs
        simp [RX_vect, USART1_RX_vect, h1] at h
    | some u =>
      rw [RX_vect_open hs] at h
      cases hb : rx_body u (s.usart i) with
      | none => simp [hb] at h
      | some p =>
        simp only [hb, Option.map_some', Option.some.injEq] at h
        rw [← h]
        exact view_put s hi hj hij _ _

/-- C10: for distinct instances `i` and `j` in {0, 1}, each operation invoked for
`i` (`init_uart`, `deinit_uart`, `uart_transmit`, `uart_read_byte`, the
data-register-empty handler and the receive-complete handler of `i`) leaves the
slot of `j` (presence, both rings with their contents and indices) and all the
registers of `j` (control, baud and data registers) unchanged. -/
theorem instance_independence (io : IoDefs) (s : State) (i j : Nat)
    (hi : i = 0 ∨ i = 1) (hj : j = 0 ∨ j = 1) (hij : i ≠ j) :
    (∀ mem baud bs par sb s1 r, init_uart io mem s i baud bs par sb = some (s1, r) →
      s1.uart_data j = s.uart_data j ∧ s1.usart j = s.usart j) ∧
    (∀ s1 r, deinit_uart io s i = some (s1, r) →
      s1.uart_data j = s.uart_data j ∧ s1.usart j = s.usart j) ∧
    (∀ data n s1 r, uart_transmit io s i data n = some (s1, r) →
      s1.uart_data j = s.uart_data j ∧ s1.usart j = s.usart j) ∧
    (∀ byte s1 r v, uart_read_byte s i byte = some (s1, r, v) →
      s1.uart_data j = s.uart_data j ∧ s1.usart j = s.usart j) ∧
    (∀ s1, UDRE_vect io s i = some s1 →
      s1.uart_data j = s.uart_data j ∧ s1.usart j = s.usart j) ∧
    (∀ s1, RX_vect s i = some s1 →
      s1.uart_data j = s.uart_data j ∧ s1.usart j = s.usart j) := by
  have split : ∀ s1 : State, instance_view s1 j = instance_view s j →
      s1.uart_data j = s.uart_data j ∧ s1.usart j = s.usart j := by
    intro s1 hv
    simp only [instance_view, Prod.mk.injEq] at hv
    exact hv
  refine ⟨?_, ?_, ?_, ?_, ?_, ?_⟩
  · intro mem baud bs par sb s1 r h
    exact split s1 (init_uart_view hi hj hij h)
  · intro s1 r h
    exact split s1 (deinit_uart_view hi hj hij h)
  · intro data n s1 r h
    exact split s1 (uart_transmit_view hi hj hij h)
  · intro byte s1 r v h
    exact split s1 (uart_read_byte_view hi hj hij h)
  · intro s1 h
    exact split s1 (UDRE_vect_view hi hj hij h)
  · intro s1 h
    exact split s1 (RX_vect_view hi hj hij h)

theorem instance_independence_witness :
    init_uart tn841 junk boot 0 9600 8 PARITY_NONE 1 = some (opened0, true) ∧
    opened0.uart_data 1 = boot.uart_data 1 ∧ opened0.usart 1 = boot.usart 1 :=
  ⟨init_uart_boot_opened0,
    (instance_independence tn841 boot 0 1 (by decide) (by decide) (by decide)).1
      junk 9600 8 PARITY_NONE 1 opened0 true init_uart_boot_opened0⟩

/-! ## `uart_read_byte`: effect on the state -/

theorem put_eq_set_uart_data (s : State) {i : Nat} (hi : i = 0 ∨ i = 1) (u : UART_DATA) :
    s.put i u (s.usart i) = s.set_uart_data i (some u) := by
  rcases hi with rfl | rfl <;> rfl

/-- C11: `uart_read_byte` returns `false` and leaves the whole state and the
caller's byte unchanged when the instance has no channel or its receive ring
is empty (`rx.tail == rx.head`); otherwise (with `rx.tail` inside the array)
it returns `true`, stores `rx.data[rx.tail]` in the caller's byte, replaces
`rx.tail` by `(rx.tail + 1) mod 16` and changes nothing else: `rx.head`,
`rx.data`, the transmit ring, the other slot, the flag and all registers stay
as they were. -/
theorem uart_read_byte_effect (s : State) (i byte : Nat) :
    (s.uart_data i = some none → uart_read_byte s i byte = some (s, false, byte)) ∧
    (∀ u, s.uart_data i = some (some u) → u.rx.tail = u.rx.head →
      uart_read_byte s i byte = some (s, false, byte)) ∧
    (∀ u, s.uart_data i = some (some u) → u.rx.tail ≠ u.rx.head → u.rx.tail < 16 →
      ∃ v, u.rx.data.read u.rx.tail = some v ∧
        uart_read_byte s i byte =
          some (s.set_uart_data i
            (some { rx := { data := u.rx.data, head := u.rx.head,
                            tail := (u.rx.tail + 1) % 16 },
                    tx := u.tx }), true, v)) := by
  refine ⟨fun h => uart_read_byte_closed s i byte h,
    fun u h he => uart_read_byte_empty byte h he, fun u h hne ht => ?_⟩
  obtain ⟨v, hv⟩ := read_defined u.rx.data ht
  refine ⟨v, hv, ?_⟩
  rw [uart_read_byte_open byte h]
  simp only [hne, ne_eq, not_false_eq_true, if_true, hv, Option.map_some', advance_lt ht]
  rw [put_eq_set_uart_data s (uart_data_some_index h)]

theorem opened0_receive : RX_vect (hw_receive opened0 0 7) 0 = some received0 := by
  decide

theorem uart_read_byte_effect_witness :
    uart_read_byte boot 0 5 = some (boot, false, 5) ∧
    uart_read_byte opened0 0 5 = some (opened0, false, 5) ∧
    ∃ v, block7.rx.data.read block7.rx.tail = some v ∧
      uart_read_byte received0 0 5 =
        some (received0.set_uart_data 0
          (some { rx := { data := block7.rx.data, head := block7.rx.head,
                          tail := (block7.rx.tail + 1) % 16 },
                  tx := block7.tx }), true, v) :=
  ⟨(uart_read_byte_effect boot 0 5).1 (by decide),
    (uart_read_byte_effect opened0 0 5).2.1 (zero_indices junk) (by decide) (by decide),
    (uart_read_byte_effect received0 0 5).2.2 block7 (by decide) (by decide) (by decide)⟩

/-! ## Index range -/

/-- A receive-complete firing with `rx.head` inside the array stores the byte of
the data register at `rx.head` and replaces `rx.head` by `(rx.head + 1) mod 16`. -/
theorem RX_vect_step {s : State} {i : Nat} {u : UART_DATA}
    (h : s.uart_data i = some (some u)) (hh : u.rx.head < 16) :
    ∃ d, u.rx.data.write u.rx.head (s.usart i).UDR_rx = some d ∧
      RX_vect s i = some (s.put i
        { rx := { data := d, head := (u.rx.head + 1) % 16, tail := u.rx.tail }, tx := u.tx }
        (s.usart i)) := by
  obtain ⟨d, hd, _⟩ := write_spec u.rx.data (s.usart i).UDR_rx hh
  refine ⟨d, hd, ?_⟩
  rw [RX_vect_open h]
  simp only [rx_body, hd, Option.map_some', advance_lt hh]

/-- A data-register-empty firing on a non-empty transmit ring with `tx.tail` inside the
array writes `tx.data[tx.tail]` and replaces `tx.tail` by `(tx.tail + 1) mod 16`. -/
theorem UDRE_vect_step (io : IoDefs) {s : State} {i : Nat} {u : UART_DATA}
    (h : s.uart_data i = some (some u)) (hne : u.tx.tail ≠ u.tx.head) (ht : u.tx.tail < 16) :
    ∃ v, u.tx.data.read u.tx.tail = some v ∧
      UDRE_vect io s i = some (s.put i
        { rx := u.rx, tx := { data := u.tx.data, head := u.tx.head,
                              tail := (u.tx.tail + 1) % 16 } }
        { s.usart i with UDR_tx := (s.usart i).UDR_tx ++ [v] }) := by
  obtain ⟨v, hv⟩ := read_defined u.tx.data ht
  refine ⟨v, hv, ?_⟩
  rw [UDRE_vect_open io h]
  simp only [udre_body, hne, ne_eq, not_false_eq_true, if_true, hv, Option.map_some',
    advance_lt ht]

/-- A call of `uart_transmit` with both transmit indices inside the array and at most 16
bytes: the copy moves `tx.head` by `n` modulo 16, then the byte at `tx.tail` is
written and `tx.tail` becomes `(tx.tail + 1) mod 16`. -/
theorem uart_transmit_step (io : IoDefs) {s : State} {i : Nat} {u : UART_DATA}
    (data : List Nat) (n : Nat) (h : s.uart_data i = some (some u))
    (hh : u.tx.head < 16) (ht : u.tx.tail < 16) (hn : n ≤ 16) (hd : n ≤ data.length) :
    ∃ tx1 v, tx_copy u.tx data n = some tx1 ∧ tx1.head = (u.tx.head + n) % 16 ∧
      tx1.tail = u.tx.tail ∧ tx1.data.read u.tx.tail = some v ∧
      uart_transmit io s i data n = some (s.put i
        { rx := u.rx, tx := { data := tx1.data, head := (u.tx.head + n) % 16,
                              tail := (u.tx.tail + 1) % 16 } }
        (kick (io.usart i) (s.usart i) v), false) := by
  obtain ⟨tx1, hc, hhead, htail, _⟩ := tx_copy_spec u.tx data n hh hn hd
  obtain ⟨v, hv⟩ := read_defined tx1.data ht
  refine ⟨tx1, v, hc, hhead, htail, hv, ?_⟩
  rw [uart_transmit_open io data n h]
  simp only [hc, Option.some_bind, htail, hv, Option.map_some', advance_lt ht, hhead]

/-- C12: `init_uart` creates a channel block with all four indices 0, and on an
open instance whose four indices lie in `[0,16)` each receive-complete firing,
each data-register-empty firing, each `uart_read_byte` and each `uart_transmit`
with `data_len < 16 - (bytes buffered in the transmit ring)` is defined and
leaves all four indices in `[0,16)`, every advanced index `x` becoming
`(x + 1) mod 16` (so 15 becomes 0, never 16) and `tx.head` becoming
`(tx.head + data_len) mod 16`. -/
theorem index_range_invariant (io : IoDefs) (s : State) (i : Nat) (u : UART_DATA)
    (hopen : s.uart_data i = some (some u)) (hr : indices_in_range u) :
    (∀ mem s0 s1 baud bs par sb, init_uart io mem s0 i baud bs par sb = some (s1, true) →
      ∃ u1, s1.uart_data i = some (some u1) ∧
        u1.rx.head = 0 ∧ u1.rx.tail = 0 ∧ u1.tx.head = 0 ∧ u1.tx.tail = 0) ∧
    (∃ s1 u1, RX_vect s i = some s1 ∧ s1.uart_data i = some (some u1) ∧
      indices_in_range u1 ∧ u1.rx.head = (u.rx.head + 1) % 16) ∧
    (∃ s1 u1, UDRE_vect io s i = some s1 ∧ s1.uart_data i = some (some u1) ∧
      indices_in_range u1 ∧ (u.tx.tail ≠ u.tx.head → u1.tx.tail = (u.tx.tail + 1) % 16)) ∧
    (∀ byte, ∃ s1 r v u1, uart_read_byte s i byte = some (s1, r, v) ∧
      s1.uart_data i = some (some u1) ∧ indices_in_range u1 ∧
      (u.rx.tail ≠ u.rx.head → u1.rx.tail = (u.rx.tail + 1) % 16)) ∧
    (∀ data n, n < 16 - ring_count u.tx → n ≤ data.length →
      ∃ s1 r u1, uart_transmit io s i data n = some (s1, r) ∧
        s1.uart_data i = some (some u1) ∧ indices_in_range u1 ∧
        u1.tx.head = (u.tx.head + n) % 16 ∧ u1.tx.tail = (u.tx.tail + 1) % 16) ∧
    advance 15 = 0 := by
  have hi := uart_data_some_index hopen
  obtain ⟨h1, h2, h3, h4⟩ := hr
  have hmod : ∀ x : Nat, x % 16 < 16 := fun x => Nat.mod_lt x (by norm_num)
  refine ⟨?_, ?_, ?_, ?_, ?_, rfl⟩
  · intro mem s0 s1 baud bs par sb h
    exact ⟨zero_indices mem, init_uart_success_slot h, rfl, rfl, rfl, rfl⟩
  · obtain ⟨d, _, hstep⟩ := RX_vect_step hopen h1
    exact ⟨_, _, hstep, put_uart_data s hi _ _, ⟨hmod _, h2, h3, h4⟩, rfl⟩
  · by_cases hne : u.tx.tail = u.tx.head
    · exact ⟨_, u, UDRE_vect_empty io hopen hne, put_uart_data s hi _ _, ⟨h1, h2, h3, h4⟩,
        fun hc => absurd hne hc⟩
    · obtain ⟨v, _, hstep⟩ := UDRE_vect_step io hopen hne h4
      exact ⟨_, _, hstep, put_uart_data s hi _ _, ⟨h1, h2, h3, hmod _⟩, fun _ => rfl⟩
  · intro byte
    by_cases hne : u.rx.tail = u.rx.head
    · exact ⟨s, false, byte, u, uart_read_byte_empty byte hopen hne, hopen, ⟨h1, h2, h3, h4⟩,
        fun hc => absurd hne hc⟩
    · obtain ⟨v, hv⟩ := read_defined u.rx.data h2
      refine ⟨_, true, v, _, ?_, put_uart_data s hi
        { rx := { data := u.rx.data, head := u.rx.head, tail := (u.rx.tail + 1) % 16 },
          tx := u.tx } (s.usart i), ⟨h1, hmod _, h3, h4⟩, fun _ => rfl⟩
      rw [uart_read_byte_open byte hopen]
      simp only [hne, ne_eq, not_false_eq_true, if_true, hv, Option.map_some', advance_lt h2]
  · intro data n hfit hd
    obtain ⟨tx1, v, _, _, _, _, hstep⟩ :=
      uart_transmit_step io data n hopen h3 h4 (by omega) hd
    exact ⟨_, false, _, hstep, put_uart_data s hi _ _, ⟨h1, h2, hmod _, hmod _⟩, rfl, rfl⟩

theorem index_range_invariant_witness :
    (∃ s1 u1, RX_vect received0 0 = some s1 ∧ s1.uart_data 0 = some (some u1) ∧
      indices_in_range u1 ∧ u1.rx.head = (block7.rx.head + 1) % 16) ∧
    (∀ data n, n < 16 - ring_count block7.tx → n ≤ data.length →
      ∃ s1 r u1, uart_transmit tn841 received0 0 data n = some (s1, r) ∧
        s1.uart_data 0 = some (some u1) ∧ indices_in_range u1 ∧
        u1.tx.head = (block7.tx.head + n) % 16 ∧ u1.tx.tail = (block7.tx.tail + 1) % 16) :=
  ⟨(index_range_invariant tn841 received0 0 block7 (by decide)
      ⟨by decide, by decide, by decide, by decide⟩).2.1,
    (index_range_invariant tn841 received0 0 block7 (by decide)
      ⟨by decide, by decide, by decide, by decide⟩).2.2.2.2.1⟩

/-! ## The split copy -/

/-- Four bytes sent with `tx.head` = 14 land in slots 14, 15, 0, 1. -/
theorem wrap0_transmit :
    (uart_transmit tn841 wrap0 0 [1, 2, 3, 4] 4).map
        (fun p => p.1.uart_data0.map (fun u => (u.tx.data.val, u.tx.head, u.tx.tail)))
      = some (some ([3, 4, 170, 170, 170, 170, 170, 170, 170, 170, 170, 170, 170, 170, 1, 2],
          2, 15)) := by
  decide

/-- C13: on an open instance with `tx.head = h` in `[0,16)`, after every
`uart_transmit` of `n <= 16` bytes that returns, `tx.head = (h + n) mod 16`,
`tx.data[(h + k) mod 16] = data[k]` for every `k < n`, every other slot of
`tx.data` is as before, and the receive ring is unchanged; and the call does
return when `tx.tail` lies inside the array. -/
theorem uart_transmit_split_copy (io : IoDefs) (s : State) (i : Nat) (u : UART_DATA)
    (data : List Nat) (hopen : s.uart_data i = some (some u))
    (hh : u.tx.head < 16) (hn : data.length ≤ 16) :
    (∀ s1 r, uart_transmit io s i data data.length = some (s1, r) →
      ∃ u1, s1.uart_data i = some (some u1) ∧
        u1.tx.head = (u.tx.head + data.length) % 16 ∧
        (∀ k, k < data.length → u1.tx.data.read ((u.tx.head + k) % 16) = data[k]?) ∧
        (∀ j, j < 16 → (∀ k, k < data.length → j ≠ (u.tx.head + k) % 16) →
          u1.tx.data.read j = u.tx.data.read j) ∧
        u1.rx = u.rx) ∧
    (u.tx.tail < 16 → ∃ s1 r, uart_transmit io s i data data.length = some (s1, r)) := by
  have hi := uart_data_some_index hopen
  obtain ⟨tx1, hc, hhead, _, hdata⟩ :=
    tx_copy_spec u.tx data data.length hh hn (Nat.le_refl _)
  refine ⟨fun s1 r h => ?_, fun ht => ?_⟩
  · rw [uart_transmit_open io data data.length hopen] at h
    cases hb : tx1.data.read tx1.tail with
    | none => simp [hc, hb] at h
    | some byte =>
      simp only [hc, Option.some_bind, hb, Option.map_some', Option.some.injEq,
        Prod.mk.injEq] at h
      rw [← h.1]
      refine ⟨_, put_uart_data s hi _ _, hhead, fun k hk => ?_, fun j hj hno => ?_, rfl⟩
      · have hlt : (u.tx.head + k) % 16 < 16 := Nat.mod_lt _ (by norm_num)
        have hidx : ((u.tx.head + k) % 16 + 16 - u.tx.head) % 16 = k := by omega
        simp only [read_eq, hdata _ hlt, hidx, hk, if_true]
      · have hnot : ¬ (j + 16 - u.tx.head) % 16 < data.length := by
          intro hlt
          exact hno _ hlt (by omega)
        simp only [read_eq, hdata _ hj, hnot, if_false]
  · obtain ⟨_, _, _, _, _, _, hstep⟩ :=
      uart_transmit_step io data data.length hopen hh ht hn (Nat.le_refl _)
    exact ⟨_, _, hstep⟩

theorem uart_transmit_split_copy_witness :
    (∀ s1 r, uart_transmit tn841 wrap0 0 [1, 2, 3, 4] [1, 2, 3, 4].length = some (s1, r) →
      ∃ u1, s1.uart_data 0 = some (some u1) ∧
        u1.tx.head = ((ring_of 170 14 14).head + [1, 2, 3, 4].length) % 16 ∧
        (∀ k, k < [1, 2, 3, 4].length →
          u1.tx.data.read (((ring_of 170 14 14).head + k) % 16) = [1, 2, 3, 4][k]?) ∧
        (∀ j, j < 16 →
          (∀ k, k < [1, 2, 3, 4].length → j ≠ ((ring_of 170 14 14).head + k) % 16) →
          u1.tx.data.read j = (ring_of 170 14 14).data.read j) ∧
        u1.rx = ring_of 170 0 0) ∧
    ((ring_of 170 14 14).tail < 16 →
      ∃ s1 r, uart_transmit tn841 wrap0 0 [1, 2, 3, 4] [1, 2, 3, 4].length = some (s1, r)) :=
  uart_transmit_split_copy tn841 wrap0 0 { rx := ring_of 170 0 0, tx := ring_of 170 14 14 }
    [1, 2, 3, 4] (by decide) (by decide) (by decide)

/-! ## A full receive ring -/

/-- After the receive-complete firings delivering `ds`, `rx.head` has moved by the
number of bytes modulo 16 and `rx.tail` has not moved. -/
theorem rx_fire_head (i : Nat) (ds : List Nat) :
    ∀ (s : State) (u : UART_DATA), s.uart_data i = some (some u) → u.rx.head < 16 →
      ∃ s1 u1, rx_fire i ds s = some s1 ∧ s1.uart_data i = some (some u1) ∧
        u1.rx.head = (u.rx.head + ds.length) % 16 ∧ u1.rx.tail = u.rx.tail ∧
        u1.tx = u.tx := by
  induction ds with
  | nil =>
    intro s u h hh
    exact ⟨s, u, rfl, h, by simp [Nat.mod_eq_of_lt hh], rfl, rfl⟩
  | cons d ds ih =>
    intro s u h hh
    have hi := uart_data_some_index h
    have h' : (hw_receive s i d).uart_data i = some (some u) := by
      rw [hw_receive_uart_data]; exact h
    obtain ⟨a, _, hstep⟩ := RX_vect_step h' hh
    obtain ⟨s2, u2, h1, h2, h3, h4, h5⟩ :=
      ih ((hw_receive s i d).put i
          { rx := { data := a, head := (u.rx.head + 1) % 16, tail := u.rx.tail }, tx := u.tx }
          ((hw_receive s i d).usart i)) _
        (put_uart_data _ hi _ _) (Nat.mod_lt _ (by norm_num))
    refine ⟨s2, u2, ?_, h2, ?_, h4, h5⟩
    · simp only [rx_fire, hstep, Option.some_bind, h1]
    · rw [h3]
      simp only [List.length_cons]
      omega

/-- C16: on an open instance whose receive ring is empty with in-range indices,
sixteen receive-complete firings with no `uart_read_byte` in between bring
`rx.head` back to `rx.tail`, and `uart_read_byte` then returns `false` without
delivering any of the sixteen bytes. -/
theorem full_receive_ring_aliases_empty (s : State) (i : Nat) (u : UART_DATA)
    (ds : List Nat) (hopen : s.uart_data i = some (some u))
    (hempty : u.rx.tail = u.rx.head) (hrange : u.rx.head < 16) (h16 : ds.length = 16) :
    ∃ s1 u1, rx_fire i ds s = some s1 ∧ s1.uart_data i = some (some u1) ∧
      u1.rx.head = u1.rx.tail ∧
      ∀ byte, uart_read_byte s1 i byte = some (s1, false, byte) := by
  obtain ⟨s1, u1, h1, h2, h3, h4, _⟩ := rx_fire_head i ds s u hopen hrange
  have he : u1.rx.tail = u1.rx.head := by
    rw [h3, h4, h16, hempty]
    omega
  exact ⟨s1, u1, h1, h2, he.symm, fun byte => uart_read_byte_empty byte h2 he⟩

theorem full_receive_ring_aliases_empty_witness :
    ∃ s1 u1, rx_fire 0 (List.range 16) opened0 = some s1 ∧
      s1.uart_data 0 = some (some u1) ∧ u1.rx.head = u1.rx.tail ∧
      ∀ byte, uart_read_byte s1 0 byte = some (s1, false, byte) :=
  full_receive_ring_aliases_empty opened0 0 (zero_indices junk) (List.range 16) (by decide)
    (by decide) (by decide) (by decide)

/-! ## Where the data-register-empty interrupt enable changes -/

theorem testBit_reg_or_other {r m p : Nat} (hp : p < 8) (hm : m.testBit p = false) :
    (reg_or r m).testBit p = r.testBit p := by
  rw [testBit_reg_or, hm]
  simp [hp]

theorem testBit_reg_andnot_other {r m p : Nat} (hp : p < 8) (hm : m.testBit p = false) :
    (reg_andnot r m).testBit p = r.testBit p := by
  rw [testBit_reg_andnot, hm]
  simp [hp]

theorem testBit_bit_ne {a p : Nat} (h : p ≠ a) : (bit a).testBit p = false := by
  rw [testBit_bit]
  exact decide_eq_false (fun he => h he.symm)

theorem set_bytesize_UCSRB_bit (b : UsartBits) (r : USART) (bs : Nat) {p : Nat}
    (hp : p < 8) (hne : p ≠ b.UCSZ2) :
    (set_bytesize b r bs).UCSRB.testBit p = r.UCSRB.testBit p := by
  unfold set_bytesize
  split <;> first | rfl | exact testBit_reg_andnot_other hp (testBit_bit_ne hne)

theorem set_parity_UCSRB (b : UsartBits) (r : USART) (par : Nat) :
    (set_parity b r par).UCSRB = r.UCSRB := by
  unfold set_parity
  split <;> rfl

theorem set_stopbits_UCSRB (b : UsartBits) (r : USART) (sb : Nat) :
    (set_stopbits b r sb).UCSRB = r.UCSRB := by
  unfold set_stopbits
  split <;> rfl

/-- The register programming of `init_uart` leaves the bit `UDRIEn` of `UCSRnB` as it was. -/
theorem program_usart_UDRIE {b : UsartBits} {r r1 : USART} {baud bs par sb : Nat}
    (hsep : udrie_separate b) (h : program_usart b r baud bs par sb = some r1) :
    r1.UCSRB.testBit b.UDRIE = r.UCSRB.testBit b.UDRIE := by
  obtain ⟨h8, hm0, hm1, hz2, htx, hrx, hrxc, htxc⟩ := hsep
  unfold program_usart at h
  simp only at h
  split at h
  · simp at h
  · simp only [Option.some.injEq] at h
    subst h
    simp only
    rw [testBit_reg_andnot_other h8 (testBit_bit_ne htxc)]
    rw [testBit_reg_or_other h8 (by
      rw [Nat.testBit_or, Nat.testBit_or, testBit_bit_ne htx, testBit_bit_ne hrx,
        testBit_bit_ne hrxc]; rfl)]
    rw [set_stopbits_UCSRB, set_parity_UCSRB, set_bytesize_UCSRB_bit _ _ _ h8 hz2]
    simp only
    exact testBit_reg_or_other h8 (by
      rw [Nat.testBit_or, testBit_bit_ne hm0, testBit_bit_ne hm1]; rfl)

/-- The register write of `deinit_uart` leaves the bit `UDRIEn` of `UCSRnB` as it was. -/
theorem disable_usart_UDRIE {b : UsartBits} (r : USART) (hsep : udrie_separate b) :
    (disable_usart b r).UCSRB.testBit b.UDRIE = r.UCSRB.testBit b.UDRIE := by
  obtain ⟨h8, _, _, _, htx, hrx, hrxc, _⟩ := hsep
  unfold disable_usart
  exact testBit_reg_andnot_other h8 (by
    rw [Nat.testBit_or, Nat.testBit_or, testBit_bit_ne htx, testBit_bit_ne hrx,
      testBit_bit_ne hrxc]; rfl)

theorem udrie_of_view {io : IoDefs} {s s1 : State} {i : Nat}
    (h : instance_view s1 i = instance_view s i) : udrie io s1 i = udrie io s i := by
  simp only [instance_view, Prod.mk.injEq] at h
  simp only [udrie, h.2]

theorem usart_SREG_I (s : State) (j : Nat) (b : Bool) :
    ({ s with SREG_I := b } : State).usart j = s.usart j := by
  match j with
  | 0 => rfl
  | (k + 1) => rfl

theorem deinit_uart_open_usart (io : IoDefs) {s : State} {k : Nat} {u : UART_DATA}
    (h : s.uart_data k = some (some u)) :
    ∃ s1, deinit_uart io s k = some (s1, true) ∧
      s1.usart k = disable_usart (io.usart k) (s.usart k) := by
  rcases uart_data_some_index h with rfl | rfl
  · simp only [deinit_uart, h]
    exact ⟨_, rfl, rfl⟩
  · simp only [deinit_uart, h]
    exact ⟨_, rfl, rfl⟩

theorem init_uart_udrie {io : IoDefs} {mem : UART_DATA} {s s1 : State}
    {i k baud bs par sb : Nat} {r : Bool} (hi : i = 0 ∨ i = 1) (hk : k = 0 ∨ k = 1)
    (hsep : udrie_separate (io.usart i))
    (h : init_uart io mem s k baud bs par sb = some (s1, r)) :
    udrie io s1 i = udrie io s i := by
  by_cases hki : k = i
  · subst hki
    cases r with
    | false =>
      rcases init_uart_result h with ⟨_, rfl⟩ | ⟨hr, _⟩
      · rfl
      · exact absurd hr (by decide)
    | true =>
      obtain ⟨_, p, hp, rfl⟩ := init_uart_success h
      simp only [udrie, usart_SREG_I, put_usart s hk]
      exact program_usart_UDRIE hsep hp
  · exact udrie_of_view (init_uart_view hk hi hki h)

theorem deinit_uart_udrie {io : IoDefs} {s s1 : State} {i k : Nat} {r : Bool}
    (hi : i = 0 ∨ i = 1) (hk : k = 0 ∨ k = 1) (hsep : udrie_separate (io.usart i))
    (h : deinit_uart io s k = some (s1, r)) : udrie io s1 i = udrie io s i := by
  by_cases hki : k = i
  · subst hki
    cases hs : s.uart_data k with
    | none => rcases hk with rfl | rfl <;> simp [State.uart_data] at hs
    | some slot =>
      cases slot with
      | none =>
        rw [deinit_uart_closed io s k hs] at h
        simp only [Option.some.injEq, Prod.mk.injEq] at h
        rw [← h.1]
      | some u =>
        obtain ⟨s2, h2, h3⟩ := deinit_uart_open_usart io hs
        rw [h2] at h
        simp only [Option.some.injEq, Prod.mk.injEq] at h
        rw [← h.1]
        simp only [udrie, h3]
        exact disable_usart_UDRIE _ hsep
  · exact udrie_of_view (deinit_uart_view hk hi hki h)

theorem uart_read_byte_udrie {io : IoDefs} {s s1 : State} {i k byte v : Nat} {r : Bool}
    (hi : i = 0 ∨ i = 1) (hk : k = 0 ∨ k = 1)
    (h : uart_read_byte s k byte = some (s1, r, v)) : udrie io s1 i = udrie io s i := by
  by_cases hki : k = i
  · subst hki
    cases hs : s.uart_data k with
    | none => rcases hk with rfl | rfl <;> simp [State.uart_data] at hs
    | some slot =>
      cases slot with
      | none =>
        rw [uart_read_byte_closed s k byte hs] at h
        simp only [Option.some.injEq, Prod.mk.injEq] at h
        rw [← h.1]
      | some u =>
        rw [uart_read_byte_open byte hs] at h
        split at h
        · cases hb : u.rx.data.read u.rx.tail with
          | none => simp [hb] at h
          | some x =>
            simp only [hb, Option.map_some', Option.some.injEq, Prod.mk.injEq] at h
            rw [← h.1]
            simp only [udrie, put_usart s hk]
        · simp only [Option.some.injEq, Prod.mk.injEq] at h
          rw [← h.1]
  · exact udrie_of_view (uart_read_byte_view hk hi hki h)

theorem RX_vect_udrie {io : IoDefs} {s s1 : State} {i k : Nat}
    (hi : i = 0 ∨ i = 1) (hk : k = 0 ∨ k = 1)
    (h : RX_vect s k = some s1) : udrie io s1 i = udrie io s i := by
  by_cases hki : k = i
  · subst hki
    cases hs : s.uart_data k with
    | none => rcases hk with rfl | rfl <;> simp [State.uart_data] at hs
    | some slot =>
      cases slot with
      | none =>
        rcases hk with rfl | rfl
        · have h0 : s.uart_data0 = none := by simpa [State.uart_data] using hs
          simp [RX_vect, USART0_RX_vect, h0] at h
        · have h1 : s.uart_data1 = none := by simpa [State.uart_data] using hs
          simp [RX_vect, USART1_RX_vect, h1] at h
      | some u =>
        rw [RX_vect_open hs] at h
        unfold rx_body at h
        cases hw : u.rx.data.write u.rx.head (s.usart k).UDR_rx with
        | none => simp [hw] at h
        | some d =>
          simp only [hw, Option.map_some', Option.some.injEq] at h
          rw [← h]
          simp only [udrie, put_usart s hk]
  · exact udrie_of_view (RX_vect_view hk hi hki h)

theorem UDRE_vect_nonempty_udrie {io : IoDefs} {s s1 : State} {i : Nat} {u : UART_DATA}
    (hs : s.uart_data i = some (some u)) (hne : u.tx.tail ≠ u.tx.head)
    (h : UDRE_vect io s i = some s1) : udrie io s1 i = udrie io s i := by
  have hi := uart_data_some_index hs
  rw [UDRE_vect_open io hs] at h
  simp only [udre_body, hne, ne_eq, not_false_eq_true, if_true] at h
  cases hb : u.tx.data.read u.tx.tail with
  | none => simp [hb] at h
  | some x =>
    simp only [hb, Option.map_some', Option.some.injEq] at h
    rw [← h]
    simp only [udrie, put_usart s hi]

theorem UDRE_vect_empty_udrie (io : IoDefs) {s : State} {i : Nat} {u : UART_DATA}
    (hs : s.uart_data i = some (some u)) (he : u.tx.tail = u.tx.head) :
    ∃ s1, UDRE_vect io s i = some s1 ∧ udrie io s1 i = false := by
  have hi := uart_data_some_index hs
  refine ⟨_, UDRE_vect_empty io hs he, ?_⟩
  simp only [udrie, put_usart s hi, testBit_reg_andnot, testBit_bit]
  simp

theorem uart_transmit_open_udrie {io : IoDefs} {s s1 : State} {i n : Nat} {u : UART_DATA}
    {data : List Nat} {r : Bool} (hbit : (io.usart i).UDRIE < 8)
    (hs : s.uart_data i = some (some u)) (h : uart_transmit io s i data n = some (s1, r)) :
    udrie io s1 i = true := by
  have hi := uart_data_some_index hs
  rw [uart_transmit_open io data n hs] at h
  cases hc : tx_copy u.tx data n with
  | none => simp [hc] at h
  | some tx1 =>
    cases hb : tx1.data.read tx1.tail with
    | none => simp [hc, hb] at h
    | some byte =>
      simp only [hc, Option.some_bind, hb, Option.map_some', Option.some.injEq,
        Prod.mk.injEq] at h
      rw [← h.1]
      simp only [udrie, put_usart s hi, kick, testBit_reg_or, testBit_bit]
      simp [hbit]

/-- C15: the data-register-empty interrupt enable `UDRIE` of instance `i` changes in
two places only. It is cleared by the data-register-empty handler of `i` on an
empty transmit ring and set by `uart_transmit` on `i` when `i` is open. It is
left as it was by `init_uart`, `deinit_uart`, `uart_read_byte` and the
receive-complete handler of either instance, by a data-register-empty firing
on a non-empty ring, by `uart_transmit` on an instance that is not open, and
by the handler and `uart_transmit` of the other instance. The bit numbers are
those of a layout in which `UDRIE` is a bit of `UCSRnB` other than the ones
`init_uart` and `deinit_uart` write. -/
theorem udrie_changes_in_two_places (io : IoDefs) (s : State) (i k : Nat)
    (hi : i = 0 ∨ i = 1) (hk : k = 0 ∨ k = 1) (hsep : udrie_separate (io.usart i)) :
    (∀ u, s.uart_data i = some (some u) → u.tx.tail = u.tx.head →
      ∃ s1, UDRE_vect io s i = some s1 ∧ udrie io s1 i = false) ∧
    (∀ u data n s1 r, s.uart_data i = some (some u) →
      uart_transmit io s i data n = some (s1, r) → udrie io s1 i = true) ∧
    (∀ mem baud bs par sb s1 r, init_uart io mem s k baud bs par sb = some (s1, r) →
      udrie io s1 i = udrie io s i) ∧
    (∀ s1 r, deinit_uart io s k = some (s1, r) → udrie io s1 i = udrie io s i) ∧
    (∀ byte s1 r v, uart_read_byte s k byte = some (s1, r, v) →
      udrie io s1 i = udrie io s i) ∧
    (∀ s1, RX_vect s k = some s1 → udrie io s1 i = udrie io s i) ∧
    (∀ u s1, s.uart_data i = some (some u) → u.tx.tail ≠ u.tx.head →
      UDRE_vect io s i = some s1 → udrie io s1 i = udrie io s i) ∧
    (∀ data n s1 r, s.uart_data i = some none →
      uart_transmit io s i data n = some (s1, r) → udrie io s1 i = udrie io s i) ∧
    (k ≠ i →
      (∀ s1, UDRE_vect io s k = some s1 → udrie io s1 i = udrie io s i) ∧
      (∀ data n s1 r, uart_transmit io s k data n = some (s1, r) →
        udrie io s1 i = udrie io s i)) := by
  refine ⟨?_, ?_, ?_, ?_, ?_, ?_, ?_, ?_, ?_⟩
  · intro u hs he
    exact UDRE_vect_empty_udrie io hs he
  · intro u data n s1 r hs h
    exact uart_transmit_open_udrie hsep.1 hs h
  · intro mem baud bs par sb s1 r h
    exact init_uart_udrie hi hk hsep h
  · intro s1 r h
    exact deinit_uart_udrie hi hk hsep h
  · intro byte s1 r v h
    exact uart_read_byte_udrie hi hk h
  · intro s1 h
    exact RX_vect_udrie hi hk h
  · intro u s1 hs hne h
    exact UDRE_vect_nonempty_udrie hs hne h
  · intro data n s1 r hs h
    rw [uart_transmit_closed io s i data n hs] at h
    simp only [Option.some.injEq, Prod.mk.injEq] at h
    rw [← h.1]
  · intro hki
    exact ⟨fun s1 h => udrie_of_view (UDRE_vect_view hk hi hki h),
      fun data n s1 r h => udrie_of_view (uart_transmit_view hk hi hki h)⟩

theorem udrie_changes_in_two_places_witness :
    init_uart tn841 junk boot 0 9600 8 PARITY_NONE 1 = some (opened0, true) ∧
    udrie tn841 opened0 0 = udrie tn841 boot 0 ∧
    ∃ s1, UDRE_vect tn841 opened0 0 = some s1 ∧ udrie tn841 s1 0 = false :=
  ⟨init_uart_boot_opened0,
    (udrie_changes_in_two_places tn841 boot 0 0 (by decide) (by decide)
      (by decide)).2.2.1 junk 9600 8 PARITY_NONE 1 opened0 true init_uart_boot_opened0,
    (udrie_changes_in_two_places tn841 opened0 0 0 (by decide) (by decide)
      (by decide)).1 (zero_indices junk) (by decide) (by decide)⟩

/-! ## Integrity of the transmit stream -/

theorem tx_run_spec (io : IoDefs) (i : Nat) (evs : List TxEvent) :
    ∀ (s : State) (u : UART_DATA), s.uart_data i = some (some u) → in_range u.tx →
      tx_fits io i evs s = true →
      ∃ s1 u1 w, tx_run io i evs s = some s1 ∧ s1.uart_data i = some (some u1) ∧
        in_range u1.tx ∧ (s1.usart i).UDR_tx = (s.usart i).UDR_tx ++ w ∧
        w ++ ring_contents u1.tx = ring_contents u.tx ++ sent evs := by
  induction evs with
  | nil =>
    intro s u h hr _
    exact ⟨s, u, [], rfl, h, hr, by simp, by simp [sent]⟩
  | cons ev evs ih =>
    intro s u h hr hfit
    have hi := uart_data_some_index h
    cases ev with
    | send d =>
      simp only [tx_fits, h, Bool.and_eq_true, decide_eq_true_eq] at hfit
      obtain ⟨⟨hne, hlen⟩, hrest⟩ := hfit
      have hcount := ring_contents_length u.tx
      cases hq : ring_contents u.tx ++ d.take d.length with
      | nil =>
        rw [List.take_length] at hq
        exact absurd (List.append_eq_nil.mp hq).2 hne
      | cons x q =>
        obtain ⟨u1, htx, _, hr1, hq1⟩ :=
          uart_transmit_cons io d d.length h hr hlen (Nat.le_refl _) hq
        rw [htx] at hrest
        simp only at hrest
        obtain ⟨s2, u2, w, h1, h2, h3, h4, h5⟩ :=
          ih (s.put i u1 (kick (io.usart i) (s.usart i) x)) u1 (put_uart_data s hi u1 _)
            hr1 hrest
        refine ⟨s2, u2, x :: w, ?_, h2, h3, ?_, ?_⟩
        · simp only [tx_run, htx, h1]
        · rw [h4, put_usart s hi]
          simp [kick]
        · rw [List.take_length] at hq
          simp only [List.cons_append, h5, hq1, sent]
          rw [← List.append_assoc, hq]
          rfl
    | fire =>
      cases hq : ring_contents u.tx with
      | nil =>
        have hstep := UDRE_vect_empty io h (ring_empty_of_contents_nil hr hq)
        simp only [tx_fits, hstep] at hfit
        obtain ⟨s2, u2, w, h1, h2, h3, h4, h5⟩ :=
          ih (s.put i u { s.usart i with
            UCSRB := reg_andnot (s.usart i).UCSRB (bit (io.usart i).UDRIE) }) u
            (put_uart_data s hi u _) hr hfit
        refine ⟨s2, u2, w, ?_, h2, h3, ?_, ?_⟩
        · simp only [tx_run, hstep, Option.some_bind, h1]
        · rw [h4, put_usart s hi]
        · rw [h5, hq]
          rfl
      | cons x q =>
        obtain ⟨u1, hstep, _, hr1, hq1, _, _⟩ := UDRE_vect_cons io h hr hq
        simp only [tx_fits, hstep] at hfit
        obtain ⟨s2, u2, w, h1, h2, h3, h4, h5⟩ :=
          ih (s.put i u1 { s.usart i with UDR_tx := (s.usart i).UDR_tx ++ [x] }) u1
            (put_uart_data s hi u1 _) hr1 hfit
        refine ⟨s2, u2, x :: w, ?_, h2, h3, ?_, ?_⟩
        · simp only [tx_run, hstep, Option.some_bind, h1]
        · rw [h4, put_usart s hi]
          simp
        · simp only [List.cons_append, h5, hq1, sent]

/-- C17: starting from a freshly opened instance, after any finite sequence of
`uart_transmit` calls and data-register-empty firings in which every call
passes non-empty data with `data_len < 16 - (bytes buffered in the transmit
ring)`, the sequence is defined and the bytes written to the transmit-data
register since the opening, followed by the bytes buffered in the transmit
ring from `tail` to `head`, are the concatenation of all the data passed. -/
theorem transmit_stream_integrity (io : IoDefs) (mem : UART_DATA) (s0 s : State)
    (i baud bs par sb : Nat) (evs : List TxEvent)
    (hfresh : init_uart io mem s0 i baud bs par sb = some (s, true))
    (hfit : tx_fits io i evs s = true) :
    ∃ s1 u1 w, tx_run io i evs s = some s1 ∧ s1.uart_data i = some (some u1) ∧
      (s1.usart i).UDR_tx = (s.usart i).UDR_tx ++ w ∧
      w ++ ring_contents u1.tx = sent evs := by
  have hslot := init_uart_success_slot hfresh
  have hr : in_range (zero_indices mem).tx := ⟨by simp [zero_indices], by simp [zero_indices]⟩
  have hq0 : ring_contents (zero_indices mem).tx = [] := ring_contents_empty rfl
  obtain ⟨s1, u1, w, h1, h2, _, h4, h5⟩ := tx_run_spec io i evs s _ hslot hr hfit
  rw [hq0, List.nil_append] at h5
  exact ⟨s1, u1, w, h1, h2, h4, h5⟩

theorem transmit_stream_integrity_witness :
    ∃ s1 u1 w,
      tx_run tn841 0 [TxEvent.send [1, 2, 3], TxEvent.fire, TxEvent.send [4, 5], TxEvent.fire]
        opened0 = some s1 ∧
      s1.uart_data 0 = some (some u1) ∧
      (s1.usart 0).UDR_tx = (opened0.usart 0).UDR_tx ++ w ∧
      w ++ ring_contents u1.tx =
        sent [TxEvent.send [1, 2, 3], TxEvent.fire, TxEvent.send [4, 5], TxEvent.fire] :=
  transmit_stream_integrity tn841 junk boot opened0 0 9600 8 PARITY_NONE 1
    [TxEvent.send [1, 2, 3], TxEvent.fire, TxEvent.send [4, 5], TxEvent.fire]
    init_uart_boot_opened0 (by decide)

/-! ## The order of the steps of `init_uart` -/

theorem uart_data_SREG_I (s : State) (j : Nat) (b : Bool) :
    ({ s with SREG_I := b } : State).uart_data j = s.uart_data j := by
  match j with
  | 0 => rfl
  | 1 => rfl
  | (k + 2) => rfl

/-- The trace agrees with `init_uart`: on success its last state is the state
`init_uart` returns, and its fourth state, the one right after `sei()`, has
interrupts enabled, the registers of the instance as they are at the end, and
the slot holding the block from `malloc` with all its fields as handed out. -/
theorem init_uart_trace_spec {io : IoDefs} {mem : UART_DATA} {s s1 : State}
    {i baud bs par sb : Nat} (h : init_uart io mem s i baud bs par sb = some (s1, true)) :
    ∃ tr s4, init_uart_trace io mem s i baud bs par sb = some tr ∧
      tr.length = 8 ∧ tr.getLast? = some s1 ∧ tr[3]? = some s4 ∧
      s4.SREG_I = true ∧ s4.usart i = s1.usart i ∧ s4.uart_data i = some (some mem) := by
  obtain ⟨hs, p, hp, rfl⟩ := init_uart_success h
  have hv : params_ok bs par sb := by
    by_contra hv
    rw [init_uart_rejects io mem s i baud bs par sb hs hv] at h
    simp at h
  unfold params_ok at hv
  rcases uart_data_some_index hs with rfl | rfl
  · have h0 : s.uart_data0 = none := by simpa [State.uart_data] using hs
    simp only [IoDefs.usart, State.usart] at hp
    simp only [init_uart_trace, State.uart_data, h0, hv, and_self, if_true,
      State.set_uart_data, USART_0, hp]
    exact ⟨_, _, rfl, rfl, rfl, rfl, rfl, rfl, rfl⟩
  · have h1 : s.uart_data1 = none := by simpa [State.uart_data] using hs
    simp only [IoDefs.usart, State.usart] at hp
    simp only [init_uart_trace, State.uart_data, h1, hv, and_self, if_true,
      State.set_uart_data, USART_0, USART_1, one_ne_zero, if_false, hp]
    exact ⟨_, _, rfl, rfl, rfl, rfl, rfl, rfl, rfl⟩

/-- C14, evaluated on the code: in `init_uart(USART_0, 9600, 8, PARITY_NONE, 1)` the call
`sei()` comes before the four index assignments. Right after it the state has
global interrupts enabled and the receive-complete interrupt of instance 0
enabled while the slot still holds the block as `malloc` handed it out, with
`rx.head` = 0xAA not yet reset; a receive-complete firing at that point stores
outside `rx.data` (no defined outcome). The claim says no such point exists. -/
theorem init_uart_sei_before_index_reset :
    init_uart tn841 junk boot 0 9600 8 PARITY_NONE 1 = some (opened0, true) ∧
    (init_uart_trace tn841 junk boot 0 9600 8 PARITY_NONE 1).map (fun tr => tr[3]?)
      = some (some after_sei0) ∧
    (init_uart_trace tn841 junk boot 0 9600 8 PARITY_NONE 1).map (fun tr => tr.getLast?)
      = some (some opened0) ∧
    after_sei0.SREG_I = true ∧ rxcie tn841 after_sei0 0 = true ∧
    after_sei0.uart_data 0 = some (some junk) ∧ junk.rx.head = 170 ∧
    RX_vect (hw_receive after_sei0 0 65) 0 = none := by
  decide

/-! ## A zero-length send -/

/-- A call of `uart_transmit` with `data_len = 0` on an open instance whose transmit ring is
empty with in-range indices still takes the byte at `tx.tail`, writes it to
the data register and advances `tx.tail` past `tx.head`. -/
theorem uart_transmit_zero_length (io : IoDefs) {s : State} {i : Nat} {u : UART_DATA}
    (data : List Nat) (h : s.uart_data i = some (some u))
    (he : u.tx.tail = u.tx.head) (hh : u.tx.head < 16) :
    ∃ s1 u1 v, uart_transmit io s i data 0 = some (s1, false) ∧
      s1.uart_data i = some (some u1) ∧
      (s1.usart i).UDR_tx = (s.usart i).UDR_tx ++ [v] ∧
      u1.tx.head = u.tx.head ∧ u1.tx.tail = (u.tx.head + 1) % 16 ∧
      u1.tx.tail ≠ u1.tx.head := by
  have hi := uart_data_some_index h
  have ht : u.tx.tail < 16 := by rw [he]; exact hh
  obtain ⟨tx1, v, _, _, _, _, hstep⟩ :=
    uart_transmit_step io data 0 h hh ht (by omega) (Nat.zero_le _)
  refine ⟨_, _, v, hstep, put_uart_data s hi _ _, ?_, ?_, ?_, ?_⟩
  · rw [put_usart s hi]
    rfl
  · simp only
    omega
  · simp only [he]
  · simp only [he]
    omega

/-- C18, evaluated on the code: on freshly opened instance 0 (transmit ring empty,
`tx.tail == tx.head == 0`) the call `uart_transmit(USART_0, data, 0)` writes the
stale byte 0xAA found at `tx.data[0]` to `UDR0` and leaves `tx.tail` = 1 with
`tx.head` = 0, so the ring is no longer empty; the next fifteen
data-register-empty firings write fifteen more stale bytes. The claim says no
byte is written and the ring stays empty. -/
theorem uart_transmit_zero_length_sends_stale_byte :
    (uart_transmit tn841 opened0 0 [] 0).map
        (fun p => ((p.1.usart 0).UDR_tx, p.1.uart_data0.map (fun u => (u.tx.head, u.tx.tail))))
      = some ([170], some (0, 1)) ∧
    ((uart_transmit tn841 opened0 0 [] 0).bind (fun p => udre_fire tn841 0 15 p.1)).map
        (fun t => (t.usart 0).UDR_tx)
      = some (List.replicate 16 170) := by
  decide

/-! ## Closing an instance that is draining -/

/-- C19, evaluated on the code: from the initial state (no instance open, every
register 0) the calls `init_uart(USART_0, 9600, 8, PARITY_NONE, 1)`,
`uart_transmit(USART_0, {0x41}, 1)`, `deinit_uart(USART_0)` reach a state in which
the data-register-empty interrupt of instance 0 is enabled and
`uart_data[USART_0]` is `NULL`: `deinit_uart` clears `TXEN0`, `RXEN0` and `RXCIE0` but
not `UDRIE0`. The handler then dereferences `NULL` (no defined outcome). The
claim says such a state is unreachable and `deinit_uart` leaves the interrupt
disabled. -/
theorem deinit_uart_leaves_udrie_enabled :
    (((init_uart tn841 junk boot 0 9600 8 PARITY_NONE 1).bind
        (fun p => uart_transmit tn841 p.1 0 [65] 1)).bind
        (fun p => deinit_uart tn841 p.1 0)) = some (closed_draining0, true) ∧
    udrie tn841 boot 0 = false ∧ udrie tn841 boot 1 = false ∧
    udrie tn841 closed_draining0 0 = true ∧
    closed_draining0.uart_data 0 = some none ∧
    UDRE_vect tn841 closed_draining0 0 = none := by
  decide

end Attiny841
